import Mathlib

/-!
# Formal model of the coordinate-extraction and summary layer

This file is a shallow embedding, in Lean, of the self-contained text
processing core of the travel-planner repository:

* `extract_map_data` from `src/maps.py` (lines 74-90),
* `get_location_summaries` together with its inner helpers
  (`strip_accents`, `shortify`, the alias table and the five matching
  strategies) from `src/maps.py` (lines 93-208), and
* `generate_place_summary` from `src/ai.py` (lines 130-143).

Modelling conventions:

* Python strings are modelled as `List Char` (`Str`); the public entry
  points take Lean `String`s and unpack them.
* Python `float` values are modelled as exact rationals (`ℚ`).  The
  numeric strings handled by the extractor are plain decimal literals,
  which parse exactly; IEEE rounding is not modelled, which can only
  matter for decimals long enough to collide with the bounds under
  rounding, far beyond anything the extraction layer meets.
* `re` operations are compiled, pattern by pattern, to deterministic
  scanners.  Each scanner's doc comment records the regex it implements
  and the backtracking analysis justifying the deterministic form.
* The character repertoire for case folding, accent stripping
  (`unicodedata.normalize('NFD', ...)` plus dropping `Mn` marks) and the
  `\w`/`\s` classes is modelled for ASCII plus the Latin-1 accented
  letters (the repertoire exercised by the program's data).
* Fallible Python code is modelled with `Option`/`Except`: `float(...)`
  is `pyFloat?` returning `Option ℚ`, and the external LLM call inside
  `generate_place_summary`'s `try` block is an `Except Unit String`
  argument (`Except.error` models the call raising an exception).
-/

abbrev Str := List Char

/-- Python's whitespace class `\s` / `str.strip()` characters, for the
ASCII repertoire: space, tab, newline, carriage return, vertical tab,
form feed. -/
def isPySpace (c : Char) : Bool :=
  c = ' ' || c = '\t' || c = '\n' || c = '\r' || c = '\x0b' || c = '\x0c'

/-- Drop leading whitespace (`\s*` consumed greedily, or the left half of
`str.strip()`). -/
def dropWs (cs : Str) : Str := cs.dropWhile isPySpace

/-- The maximal leading whitespace run. -/
def takeWs (cs : Str) : Str := cs.takeWhile isPySpace

/-- Python `str.strip()`: remove leading and trailing whitespace. -/
def pyStrip (cs : Str) : Str := dropWs ((dropWs cs.reverse).reverse)

/-- Lower-case mapping for the accented repertoire (Python `str.lower()`
beyond ASCII). -/
def accentLowerPairs : List (Char × Char) :=
  [('Á', 'á'), ('À', 'à'), ('Â', 'â'), ('Ä', 'ä'), ('Ã', 'ã'), ('Å', 'å'),
   ('É', 'é'), ('È', 'è'), ('Ê', 'ê'), ('Ë', 'ë'),
   ('Í', 'í'), ('Ì', 'ì'), ('Î', 'î'), ('Ï', 'ï'),
   ('Ó', 'ó'), ('Ò', 'ò'), ('Ô', 'ô'), ('Ö', 'ö'), ('Õ', 'õ'),
   ('Ú', 'ú'), ('Ù', 'ù'), ('Û', 'û'), ('Ü', 'ü'),
   ('Ç', 'ç'), ('Ñ', 'ñ'), ('Ý', 'ý'), ('Œ', 'œ'), ('Æ', 'æ')]

/-- Python `str.lower()` on one character (ASCII plus the accented
repertoire above). -/
def pyLowerChar (c : Char) : Char :=
  match (accentLowerPairs.find? (fun p => p.1 = c)) with
  | some p => p.2
  | none => c.toLower

/-- Python `str.lower()`. -/
def pyLower (cs : Str) : Str := cs.map pyLowerChar

/-- NFD base characters: the accented letters of the modelled repertoire
together with the letter left after dropping the combining mark.  This
models `strip_accents` of `src/maps.py` lines 102-103
(`unicodedata.normalize('NFD', s)` followed by removing category-`Mn`
code points). -/
def accentBasePairs : List (Char × Char) :=
  [('á', 'a'), ('à', 'a'), ('â', 'a'), ('ä', 'a'), ('ã', 'a'), ('å', 'a'),
   ('Á', 'A'), ('À', 'A'), ('Â', 'A'), ('Ä', 'A'), ('Ã', 'A'), ('Å', 'A'),
   ('é', 'e'), ('è', 'e'), ('ê', 'e'), ('ë', 'e'),
   ('É', 'E'), ('È', 'E'), ('Ê', 'E'), ('Ë', 'E'),
   ('í', 'i'), ('ì', 'i'), ('î', 'i'), ('ï', 'i'),
   ('Í', 'I'), ('Ì', 'I'), ('Î', 'I'), ('Ï', 'I'),
   ('ó', 'o'), ('ò', 'o'), ('ô', 'o'), ('ö', 'o'), ('õ', 'o'),
   ('Ó', 'O'), ('Ò', 'O'), ('Ô', 'O'), ('Ö', 'O'), ('Õ', 'O'),
   ('ú', 'u'), ('ù', 'u'), ('û', 'u'), ('ü', 'u'),
   ('Ú', 'U'), ('Ù', 'U'), ('Û', 'U'), ('Ü', 'U'),
   ('ç', 'c'), ('Ç', 'C'), ('ñ', 'n'), ('Ñ', 'N'), ('ý', 'y'), ('Ý', 'Y')]

/-- `strip_accents` (`src/maps.py` lines 102-103): decompose and drop
combining marks; on the modelled repertoire this replaces each accented
letter by its base letter and leaves everything else unchanged. -/
def stripAccents (cs : Str) : Str :=
  cs.map (fun c =>
    match (accentBasePairs.find? (fun p => p.1 = c)) with
    | some p => p.2
    | none => c)

/-- Python's `\w` class on the modelled repertoire: ASCII alphanumerics,
underscore, and the accented letters (plus a few unaccented extra Latin
letters that Python also counts as word characters). -/
def isWordChar (c : Char) : Bool :=
  c.isAlphanum || c = '_' ||
  (accentBasePairs.any (fun p => p.1 = c)) ||
  c = 'œ' || c = 'Œ' || c = 'æ' || c = 'Æ' || c = 'ß'

/-- Decimal digit test (`\d` for the ASCII repertoire). -/
def isDig (c : Char) : Bool := c.isDigit

/-- Maximal run of decimal digits and the remainder. -/
def takeDigits (cs : Str) : Str × Str :=
  (cs.takeWhile isDig, cs.dropWhile isDig)

/-- Is `needle` a prefix of `hay`?  (Decidable, by direct recursion.) -/
def isSubAt : Str → Str → Bool
  | [], _ => true
  | _ :: _, [] => false
  | a :: as, b :: bs => a = b && isSubAt as bs

/-- Python's substring test `needle in hay` (true for the empty needle,
as in Python). -/
def containsSub : Str → Str → Bool
  | hay, needle =>
    if isSubAt needle hay then true
    else
      match hay with
      | [] => false
      | _ :: t => containsSub t needle

/-- Case-insensitive literal match of `pat` as a prefix of `cs`
(the behaviour of `re.escape(pat)` under `re.IGNORECASE`); returns the
remainder on success. -/
def matchLitCI : Str → Str → Option Str
  | [], cs => some cs
  | _ :: _, [] => none
  | p :: ps, c :: cs =>
    if pyLowerChar p = pyLowerChar c then matchLitCI ps cs else none

/-- Does `cs` end with `tail`? -/
def pyEndsWith (cs tail : Str) : Bool := isSubAt tail.reverse cs.reverse

/-- Worker for `pySplitWs`; `acc` carries the word being read, in
reverse.  (Structural recursion, so that the kernel can evaluate it.) -/
def splitWsAcc : Str → Str → List Str
  | [], acc => if acc = [] then [] else [acc.reverse]
  | c :: cs, acc =>
    if isPySpace c then
      if acc = [] then splitWsAcc cs [] else acc.reverse :: splitWsAcc cs []
    else splitWsAcc cs (c :: acc)

/-- Python `str.split()` with no separator: maximal non-whitespace runs,
empties discarded. -/
def pySplitWs (cs : Str) : List Str := splitWsAcc cs []

/-- `sep.join(pieces)` for an arbitrary separator. -/
def joinWith (sep : Str) : List Str → Str
  | [] => []
  | [w] => w
  | w :: ws => w ++ sep ++ joinWith sep ws

/-- `' '.join(words)`. -/
def joinSpace : List Str → Str := joinWith [' ']

/-- Split on `'\n'`, keeping empty pieces (`text.split('\n')`). -/
def splitNl : Str → List Str
  | [] => [[]]
  | c :: cs =>
    if c = '\n' then [] :: splitNl cs
    else
      match splitNl cs with
      | [] => [[c]]
      | l :: ls => (c :: l) :: ls

/-- Python `str.splitlines()` for texts whose only line terminator is
`'\n'`: like `split('\n')` but without a trailing empty piece. -/
def pyLines (cs : Str) : List Str :=
  if cs = [] then []
  else if cs.getLast? = some '\n' then (splitNl cs).dropLast
  else splitNl cs

/-- Worker for `splitSep`.  A separator hit consumes `sep.length ≥ 1`
characters and any other step consumes one, so fuel `cs.length + 1`
cannot run out. -/
def splitSepAux (sep : Str) : Nat → Str → List Str
  | 0, cs => [cs]
  | n + 1, cs =>
    match cs with
    | [] => [[]]
    | c :: cs2 =>
      if isSubAt sep cs then
        [] :: splitSepAux sep n (cs2.drop (sep.length - 1))
      else
        match splitSepAux sep n cs2 with
        | [] => [[c]]
        | l :: ls => (c :: l) :: ls

/-- Python `str.split(sep)` for a non-empty literal separator: leftmost,
non-overlapping. -/
def splitSep (sep cs : Str) : List Str := splitSepAux sep (cs.length + 1) cs

/-- Sentence-terminating punctuation (`[.!?]`). -/
def isSentEnd (c : Char) : Bool := c = '.' || c = '!' || c = '?'

/-- Does the string start with a whitespace character? -/
def firstIsWs : Str → Bool
  | [] => false
  | c :: _ => isPySpace c

/-- Worker for `sentSplit` (a split consumes the punctuation mark and at
least one whitespace character, any other step one character, so fuel
`cs.length + 1` cannot run out). -/
def sentSplitAux : Nat → Str → List Str
  | 0, cs => [cs]
  | n + 1, cs =>
    match cs with
    | [] => [[]]
    | c :: cs2 =>
      if isSentEnd c && firstIsWs cs2 then
        [c] :: sentSplitAux n (dropWs cs2)
      else
        match sentSplitAux n cs2 with
        | [] => [[c]]
        | l :: ls => (c :: l) :: ls

/-- `re.split(r'(?<=[.!?])\s+', text)` (`src/maps.py` line 99 and
line 116): split after sentence punctuation followed by whitespace; the
whitespace run is consumed greedily and the punctuation stays with the
left piece. -/
def sentSplit (cs : Str) : List Str := sentSplitAux (cs.length + 1) cs

/-- Worker for `wordRuns` (a run consumes at least one character). -/
def wordRunsAux : Nat → Str → List Str
  | 0, _ => []
  | n + 1, cs =>
    match cs with
    | [] => []
    | c :: cs2 =>
      if isWordChar c then
        (c :: cs2.takeWhile isWordChar) :: wordRunsAux n (cs2.dropWhile isWordChar)
      else wordRunsAux n cs2

/-- The runs matched by `re.findall(r"\w+", s)`. -/
def wordRuns (cs : Str) : List Str := wordRunsAux (cs.length + 1) cs

/-- The optional leading minus of the `-?` regex atoms: the sign text
and the remainder. -/
def dashSign : Str → Str × Str
  | '-' :: r => (['-'], r)
  | t => ([], t)

/-- The sign handling of Python `float()`: leading `'-'` or `'+'`. -/
def pySign : Str → Bool × Str
  | '-' :: r => (true, r)
  | '+' :: r => (false, r)
  | t => (false, t)

/-- The number subpattern of the extractor's regex, `-?\d+\.?\d+`
(`src/maps.py` line 76), matched greedily at the head of `cs`; returns
the matched text and the remainder.  Backtracking analysis: a successful
match is either `digits '.' digits` (both runs maximal and non-empty),
or, when no fractional digit follows, the single maximal digit run split
between the two `\d+` atoms — which requires at least two digits and
leaves a bare following `'.'` unconsumed (the pattern context after the
number, `\s*\|` or the end of the pattern, then decides the attempt). -/
def parseNumCode (cs : Str) : Option (Str × Str) :=
  let p := dashSign cs
  let (d1, cs2) := takeDigits p.2
  if d1 = [] then none
  else
    match cs2 with
    | '.' :: t =>
      let (d2, cs3) := takeDigits t
      if d2 = [] then
        if 2 ≤ d1.length then some (p.1 ++ d1, cs2) else none
      else some (p.1 ++ d1 ++ '.' :: d2, cs3)
    | _ => if 2 ≤ d1.length then some (p.1 ++ d1, cs2) else none

/-- The looser number subpattern `-?\d+\.?\d*` used by the summary
pre-processing regexes (`src/maps.py` lines 98 and 190): sign, a
non-empty digit run, then optionally a `'.'` with a possibly-empty digit
run (so a trailing `'.'` is consumed here, unlike in `parseNumCode`). -/
def parseNumLoose (cs : Str) : Option (Str × Str) :=
  let p := dashSign cs
  let (d1, cs2) := takeDigits p.2
  if d1 = [] then none
  else
    match cs2 with
    | '.' :: t =>
      let (d2, cs3) := takeDigits t
      some (p.1 ++ d1 ++ '.' :: d2, cs3)
    | _ => some (p.1 ++ d1, cs2)

/-- Follows the spec's words (§4.1): a latitude/longitude field is a
decimal number, "optionally negative, optionally integer-valued" — an
optional minus sign, one or more digits, and an optional fractional part
(a point followed by one or more digits).  Unlike `parseNumCode` this
accepts a single-digit integer field. -/
def parseNumSpec (cs : Str) : Option (Str × Str) :=
  let p := dashSign cs
  let (d1, cs2) := takeDigits p.2
  if d1 = [] then none
  else
    match cs2 with
    | '.' :: t =>
      let (d2, cs3) := takeDigits t
      if d2 = [] then some (p.1 ++ d1, cs2)
      else some (p.1 ++ d1 ++ '.' :: d2, cs3)
    | _ => some (p.1 ++ d1, cs2)

/-- Numeric value of one decimal digit character. -/
def digitVal (c : Char) : ℕ := c.toNat - '0'.toNat

/-- Value of a digit run read in base 10. -/
def digitsValN (ds : Str) : ℕ := ds.foldl (fun acc c => 10 * acc + digitVal c) 0

/-- The exact rational value of the decimal literal with integer digits
`d1` and fractional digits `d2` (built with `mkRat` rather than with
rational arithmetic, whose Batteries definitions are irreducible and
would block kernel evaluation; the value is the same). -/
def decValue (d1 d2 : Str) : ℚ :=
  mkRat (digitsValN d1 * 10 ^ d2.length + digitsValN d2) (10 ^ d2.length)

/-- Python `float(s)` restricted to plain decimal literals: optional
surrounding whitespace, optional sign, digits with at most one decimal
point and at least one digit in total.  Returns `none` where `float`
raises `ValueError`.  Values are exact rationals (IEEE rounding is not
modelled; see the header). -/
def pyFloat? (s : Str) : Option ℚ :=
  let t := pyStrip s
  let p := pySign t
  let (d1, t2) := takeDigits p.2
  match t2 with
  | [] =>
    if d1 = [] then none
    else some (if p.1 then -(decValue d1 []) else decValue d1 [])
  | '.' :: r =>
    let (d2, t3) := takeDigits r
    if t3 = [] then
      if d1 = [] && d2 = [] then none
      else some (if p.1 then -(decValue d1 d2) else decValue d1 d2)
    else none
  | _ => none

/-- The tail of the extractor's pattern after `group1` and its `'|'`:
`\s*(-?\d+\.?\d+)\s*\|\s*(-?\d+\.?\d+)`.  The interior `\s*` runs are
deterministic (maximal), because each is followed by a character that is
never whitespace; a first number that leaves a trailing `'.'` unconsumed
makes the following `\s*\|` fail, exactly as in the regex, while the
match simply ends after the second number (anything left, including a
bare `'.'`, stays in the remainder for `findall` to continue from). -/
def scanTripleTail (cs : Str) : Option (Str × Str × Str) :=
  match parseNumCode (dropWs cs) with
  | none => none
  | some (n1, r1) =>
    match dropWs r1 with
    | '|' :: r2 =>
      match parseNumCode (dropWs r2) with
      | none => none
      | some (n2, r3) => some (n1, n2, r3)
    | _ => none

/-- Same tail with the spec's number grammar. -/
def scanTripleTailSpec (cs : Str) : Option (Str × Str × Str) :=
  match parseNumSpec (dropWs cs) with
  | none => none
  | some (n1, r1) =>
    match dropWs r1 with
    | '|' :: r2 =>
      match parseNumSpec (dropWs r2) with
      | none => none
      | some (n2, r3) => some (n1, n2, r3)
    | _ => none

/-- The suffix of `before` after its last `'\n'`: the `group1` text
usable before a given `'|'` (the capture `[^|\n]+` cannot cross a
newline, and `findall`'s restart-at-next-position behaviour means the
leftmost successful start sits just after the last newline before the
separator, or at the current scan position). -/
def lastLineSeg (before : Str) : Str :=
  (before.reverse.takeWhile (fun c => !(c = '\n'))).reverse

/-- Worker for `findTriples`, structured on explicit fuel.  Every
recursive call passes a strictly shorter string (the text after the
candidate `'|'`, or the remainder after a complete match, which lies
beyond that `'|'`), so fuel `cs.length + 1` can never run out and the
fuel-exhausted branch is unreachable. -/
def findTriplesAux : Nat → Str → List (Str × Str × Str)
  | 0, _ => []
  | n + 1, cs =>
    let before := cs.takeWhile (fun c => !(c = '|'))
    match cs.dropWhile (fun c => !(c = '|')) with
    | [] => []
    | _ :: after =>
      let seg := lastLineSeg before
      if seg = [] then findTriplesAux n after
      else
        match scanTripleTail after with
        | some (n1, n2, rest) => (seg, n1, n2) :: findTriplesAux n rest
        | none => findTriplesAux n after

/-- `re.findall(r"([^|\n]+)\|\s*(-?\d+\.?\d+)\s*\|\s*(-?\d+\.?\d+)", text)`
(`src/maps.py` lines 76-77), as the list of `(group1, group2, group3)`
captures.  Scanning analysis: `findall` attempts the pattern at
successive start positions and resumes after each match; for a start
`s`, the greedy `[^|\n]+` must end exactly at the next `'|'` (its
characters can be neither `'|'` nor a newline), so all starts from `s`
up to that `'|'` succeed or fail together with the same tail, and each
candidate separator `'|'` is effectively tried once, with `group1` the
non-empty text between the last newline (or the scan position) and the
`'|'`. -/
def findTriples (cs : Str) : List (Str × Str × Str) :=
  findTriplesAux (cs.length + 1) cs

/-- Worker for `findTriplesSpec` (same scanning, spec number grammar). -/
def findTriplesSpecAux : Nat → Str → List (Str × Str × Str)
  | 0, _ => []
  | n + 1, cs =>
    let before := cs.takeWhile (fun c => !(c = '|'))
    match cs.dropWhile (fun c => !(c = '|')) with
    | [] => []
    | _ :: after =>
      let seg := lastLineSeg before
      if seg = [] then findTriplesSpecAux n after
      else
        match scanTripleTailSpec after with
        | some (n1, n2, rest) => (seg, n1, n2) :: findTriplesSpecAux n rest
        | none => findTriplesSpecAux n after

/-- The triple occurrences under the spec's number grammar. -/
def findTriplesSpec (cs : Str) : List (Str × Str × Str) :=
  findTriplesSpecAux (cs.length + 1) cs

/-- The name normalisation of `extract_map_data` (`src/maps.py` lines
80-81): `strip()`, then `re.sub(r"[\*\-\[\]]", "", ...)` — delete every
`*`, `-`, `[`, `]` — then `strip()` again. -/
def cleanName (raw : Str) : Str :=
  pyStrip ((pyStrip raw).filter (fun c => !(c = '*' || c = '-' || c = '[' || c = ']')))

/-- A validated location record (`{"name": ..., "lat": ..., "lon": ...}`
row of the DataFrame built by `extract_map_data`). -/
structure LocationRecord where
  name : String
  lat : ℚ
  lon : ℚ
deriving DecidableEq, Repr

/-- `extract_map_data` (`src/maps.py` lines 74-90): iterate over the
regex matches, normalise the name, parse both coordinates (the
`except ValueError: continue` branch is the `Option` mismatch case),
keep in-range records, appending in match order.  The pandas DataFrame
wrapper is dropped: the model returns the list of row records, and the
empty DataFrame is the empty list. -/
def extractStep (data : List LocationRecord) (m : Str × Str × Str) :
    List LocationRecord :=
  match pyFloat? m.2.1, pyFloat? m.2.2 with
  | some lat, some lon =>
    if -90 ≤ lat ∧ lat ≤ 90 ∧ -180 ≤ lon ∧ lon ≤ 180 then
      data ++ [{ name := ⟨cleanName m.1⟩, lat := lat, lon := lon }]
    else data
  | _, _ => data

def extract_map_data (text : String) : List LocationRecord :=
  (findTriples text.data).foldl extractStep []

/-- The record made from one regex match, if it validates: both numeric
captures parse and are in range; the name is stripped of whitespace and
of the decoration characters. -/
def recordOf (m : Str × Str × Str) : Option LocationRecord :=
  match pyFloat? m.2.1, pyFloat? m.2.2 with
  | some lat, some lon =>
    if -90 ≤ lat ∧ lat ≤ 90 ∧ -180 ≤ lon ∧ lon ≤ 180 then
      some { name := ⟨cleanName m.1⟩, lat := lat, lon := lon }
    else none
  | _, _ => none

/-- Follows the spec's words (§4.1 of the spec): one record per
occurrence of a `name | lat | lon` triple whose fields are decimal
numbers (optionally negative, optionally integer-valued), in occurrence
order, name stripped of whitespace and of `*`, `-`, `[`, `]`, records
with unparsable or out-of-range coordinates excluded. -/
def spec_extract (text : String) : List LocationRecord :=
  (findTriplesSpec text.data).filterMap recordOf

/-- A `group1` character of the triple patterns: neither `'|'` nor a
newline. -/
def notPipeNl (c : Char) : Bool := !(c = '|' || c = '\n')

/-- The suffix of `cs` beginning at its last `'\n'`, if any. -/
def sufFromLastNl : Str → Option Str
  | [] => none
  | c :: cs =>
    match sufFromLastNl cs with
    | some s => some s
    | none => if c = '\n' then some (c :: cs) else none

/-- The multiline `\s*$` ending the triple-line pattern of `src/maps.py`
line 98.  `\s*` is greedy and may cross newlines; `$` holds at the end
of the text or just before a `'\n'`.  So the match consumes the whole
maximal whitespace run when that run reaches the end of the text,
otherwise everything up to (but not including) the run's last newline;
with no newline in the run and text left over, the attempt fails.
Returns the remainder after the consumed span. -/
def endGreedyWs (cs : Str) : Option Str :=
  let rest := dropWs cs
  if rest = [] then some []
  else
    match sufFromLastNl (takeWs cs) with
    | some s => some (s ++ rest)
    | none => none

/-- One attempt, at a line start, of the pattern of `src/maps.py`
line 98, `(?m)^[^\n|]+\|\s*-?\d+\.?\d*\s*\|\s*-?\d+\.?\d*\s*$`: the
greedy name segment must end exactly at a `'|'`; the interior `\s*`
runs are maximal (each is followed by a character that is never
whitespace) and may cross newlines; the numbers follow `parseNumLoose`;
the final `\s*$` follows `endGreedyWs`.  Returns the remainder after
the matched span. -/
def matchTripleLine (cs : Str) : Option Str :=
  let nm := cs.takeWhile notPipeNl
  match cs.dropWhile notPipeNl with
  | '|' :: r1 =>
    if nm = [] then none
    else
      match parseNumLoose (dropWs r1) with
      | none => none
      | some (_, r3) =>
        match dropWs r3 with
        | '|' :: r5 =>
          match parseNumLoose (dropWs r5) with
          | none => none
          | some (_, r7) => endGreedyWs r7
        | _ => none
  | _ => none

/-- Worker for `removeTripleLines`: a `re.sub(..., "", ...)` scan.
`atStart` tracks whether the position is a line start (where `(?m)^`
matches; the position just after a removed span sits before a newline
or at the end, never at a line start).  Every step strictly shortens
the text — a failed or impossible position emits one character, a match
consumes at least its name segment and separator — so fuel
`cs.length + 1` cannot run out. -/
def remTriplesAux : Nat → Str → Bool → Str
  | 0, cs, _ => cs
  | n + 1, cs, atStart =>
    match cs with
    | [] => []
    | c :: cs2 =>
      if atStart then
        match matchTripleLine cs with
        | some rest => remTriplesAux n rest false
        | none => c :: remTriplesAux n cs2 (c = '\n')
      else c :: remTriplesAux n cs2 (c = '\n')

/-- `re.sub(r"(?m)^[^\n|]+\|\s*-?\d+\.?\d*\s*\|\s*-?\d+\.?\d*\s*$", "", text)`
(`src/maps.py` line 98): remove every coordinate-triple line. -/
def removeTripleLines (cs : Str) : Str := remTriplesAux (cs.length + 1) cs true

/-- The continuation of the COORDINATES-block pattern (`src/maps.py`
line 97): `(?:\n(?:.*\|.*\|.*$))*` greedily consumes each following
newline whose line contains at least two `'|'` characters.  Each
iteration consumes at least the newline, so fuel `cs.length + 1`
suffices. -/
def coordContLines : Nat → Str → Str
  | 0, cs => cs
  | n + 1, cs =>
    match cs with
    | '\n' :: rest =>
      if 2 ≤ (rest.takeWhile (fun c => !(c = '\n'))).countP (fun c => c = '|') then
        coordContLines n (rest.dropWhile (fun c => !(c = '\n')))
      else cs
    | _ => cs

/-- One attempt, at a line start, of the heading pattern of
`src/maps.py` line 97,
`(?mi)^\s*#{1,3}\s*COORDINATES.*$(?:\n(?:.*\|.*\|.*$))*`: both `\s*`
runs are maximal (each is followed on success by a character that is
never whitespace) and may cross newlines; `#{1,3}` must take the whole
`'#'` run, because stopping early leaves a `'#'` where `COORDINATES` is
required, so a run longer than three fails every alternative; `.*$`
consumes to the end of the line; then the continuation lines.  Returns
the remainder after the matched span. -/
def matchCoordBlock (cs : Str) : Option Str :=
  let r1 := dropWs cs
  let hashes := r1.takeWhile (fun c => c = '#')
  if hashes = [] ∨ 3 < hashes.length then none
  else
    match matchLitCI "coordinates".data (dropWs (r1.dropWhile (fun c => c = '#'))) with
    | none => none
    | some r3 =>
      let r4 := r3.dropWhile (fun c => !(c = '\n'))
      some (coordContLines (r4.length + 1) r4)

/-- Worker for `removeCoordBlocks` (same scan structure as
`remTriplesAux`; a match consumes at least one `'#'`). -/
def remCoordAux : Nat → Str → Bool → Str
  | 0, cs, _ => cs
  | n + 1, cs, atStart =>
    match cs with
    | [] => []
    | c :: cs2 =>
      if atStart then
        match matchCoordBlock cs with
        | some rest => remCoordAux n rest false
        | none => c :: remCoordAux n cs2 (c = '\n')
      else c :: remCoordAux n cs2 (c = '\n')

/-- `re.sub(r"(?mi)^\s*#{1,3}\s*COORDINATES.*$(?:\n(?:.*\|.*\|.*$))*", "", text)`
(`src/maps.py` line 97): remove COORDINATES section headers together
with their runs of pipe-bearing lines. -/
def removeCoordBlocks (cs : Str) : Str := remCoordAux (cs.length + 1) cs true

/-- One attempt of the embedded-coordinate pattern of `src/maps.py`
line 190, `\|\s*-?\d+\.?\d*\s*\|\s*-?\d+\.?\d*`: deterministic for the
same reasons as `matchTripleLine`, without anchors.  Returns the
remainder after the match. -/
def matchCoordFrag (cs : Str) : Option Str :=
  match cs with
  | '|' :: r1 =>
    match parseNumLoose (dropWs r1) with
    | none => none
    | some (_, r3) =>
      match dropWs r3 with
      | '|' :: r5 =>
        match parseNumLoose (dropWs r5) with
        | none => none
        | some (_, r7) => some r7
      | _ => none
  | _ => none

/-- Worker for `subCoordFrag` (every step strictly shortens the text). -/
def subCoordFragAux : Nat → Str → Str
  | 0, cs => cs
  | n + 1, cs =>
    match cs with
    | [] => []
    | c :: cs2 =>
      match matchCoordFrag cs with
      | some rest => subCoordFragAux n rest
      | none => c :: subCoordFragAux n cs2

/-- `re.sub(r"\|\s*-?\d+\.?\d*\s*\|\s*-?\d+\.?\d*", "", desc)`
(`src/maps.py` line 190). -/
def subCoordFrag (cs : Str) : Str := subCoordFragAux (cs.length + 1) cs

/-- The lazy group of `\*\*(.*?)\*\*`: the first closing `"**"` wins,
and the group cannot cross a newline (`.` without `DOTALL`).  Returns
the group and the remainder after the closing pair. -/
def findBoldClose : Str → Option (Str × Str)
  | [] => none
  | '*' :: '*' :: rest => some ([], rest)
  | '\n' :: _ => none
  | c :: cs =>
    match findBoldClose cs with
    | some (g, r) => some (c :: g, r)
    | none => none

/-- Worker for `subBold`: `re.sub(r"\*\*(.*?)\*\*", r"\1", desc)`
(`src/maps.py` line 191), scanning left to right; an opener without a
closing pair advances one character; the emitted group is not rescanned
(`re.sub` resumes after the match in the original text). -/
def subBoldAux : Nat → Str → Str
  | 0, cs => cs
  | n + 1, cs =>
    match cs with
    | '*' :: '*' :: rest =>
      match findBoldClose rest with
      | some (g, r) => g ++ subBoldAux n r
      | none => '*' :: subBoldAux n ('*' :: rest)
    | c :: cs2 => c :: subBoldAux n cs2
    | [] => []

/-- `re.sub(r"\*\*(.*?)\*\*", r"\1", desc)` (`src/maps.py` line 191). -/
def subBold (cs : Str) : Str := subBoldAux (cs.length + 1) cs

/-- The lazy group of `\*(.*?)\*` (first closing `'*'`, no newline). -/
def findItalClose : Str → Option (Str × Str)
  | [] => none
  | '*' :: rest => some ([], rest)
  | '\n' :: _ => none
  | c :: cs =>
    match findItalClose cs with
    | some (g, r) => some (c :: g, r)
    | none => none

/-- Worker for `subItal` (structure as in `subBoldAux`). -/
def subItalAux : Nat → Str → Str
  | 0, cs => cs
  | n + 1, cs =>
    match cs with
    | '*' :: rest =>
      match findItalClose rest with
      | some (g, r) => g ++ subItalAux n r
      | none => '*' :: subItalAux n rest
    | c :: cs2 => c :: subItalAux n cs2
    | [] => []

/-- `re.sub(r"\*(.*?)\*", r"\1", desc)` (`src/maps.py` line 192). -/
def subItal (cs : Str) : Str := subItalAux (cs.length + 1) cs

/-- `re.sub(r"^\s*#{1,6}\s*", "", desc)` (`src/maps.py` line 193): with
no MULTILINE flag, `^` only matches at the very start, so at most one
substitution happens; `#{1,6}` takes at most six of the hash run, and
when hashes remain the trailing `\s*` is empty. -/
def subLeadHeading (cs : Str) : Str :=
  let r1 := dropWs cs
  let hashes := r1.takeWhile (fun c => c = '#')
  let r2 := r1.dropWhile (fun c => c = '#')
  if hashes = [] then cs
  else if hashes.length ≤ 6 then dropWs r2
  else hashes.drop 6 ++ r2

/-- `re.sub(r"^[\W_]+", "", desc)` (`src/maps.py` line 194): drop the
leading run of non-word or underscore characters. -/
def subLeadNonWord (cs : Str) : Str :=
  cs.dropWhile (fun c => !isWordChar c || c = '_')

/-- The section labels of `src/maps.py` line 195 in the pattern's
alternation order, lower-cased for the `re.I` comparison. -/
def sectionLabels : List Str :=
  ["neighborhoods".data, "gastronomy".data, "coordinates".data,
   "coordinate".data, "coordinates".data]

/-- `re.sub(r"^(?:🏘️\s*)?(?:Neighborhoods|Gastronomy|COORDINATES|COORDINATE|Coordinates)[:\-\s]*", "", desc, flags=re.I)`
(`src/maps.py` line 195): one substitution at the start; the optional
house-emoji prefix (two code points, U+1F3D8 U+FE0F) is taken greedily
and dropped again when no label follows; the labels are tried in
pattern order, case-insensitively; `[:\-\s]*` is maximal. -/
def subLeadLabels (cs : Str) : Str :=
  let tryLabels : Str → Option Str := fun t =>
    (sectionLabels.findSome? (fun lab => matchLitCI lab t)).map
      (fun r => r.dropWhile (fun c => c = ':' || c = '-' || isPySpace c))
  let withEmoji : Option Str :=
    match cs with
    | c1 :: c2 :: rest =>
      if c1 = Char.ofNat 0x1F3D8 && c2 = Char.ofNat 0xFE0F then
        tryLabels (dropWs rest)
      else none
    | _ => none
  match withEmoji with
  | some r => r
  | none =>
    match tryLabels cs with
    | some r => r
    | none => cs

/-- The separator class `[:\-–—]` of the labelled-line patterns. -/
def isSepChar (c : Char) : Bool := c = ':' || c = '-' || c = '–' || c = '—'

/-- The whitespace-prefix candidates for a backtracked greedy `\s*`: the
suffixes of `cs` after `k` leading whitespace characters, `k` from
maximal down to zero. -/
def wsSplits (cs : Str) : List Str :=
  ((List.range ((takeWs cs).length + 1)).reverse).map (fun k => cs.drop k)

/-- `re.sub(rf"^\s*{re.escape(name)}\s*[:\-–—]\s*", "", desc, flags=re.I)`
(`src/maps.py` line 197): one substitution at the start.  The leading
`\s*` is backtracked explicitly (a caller-supplied name may begin with
whitespace); after the name, `\s*` is maximal (separator characters are
never whitespace), one separator is required, and the final `\s*` is
maximal.  The `try/except re.error` around this call in the source is
dead — `re.escape` always yields a valid pattern — so the model is
total. -/
def subLeadNamePrefix (name cs : Str) : Str :=
  let att : Str → Option Str := fun t =>
    match matchLitCI name t with
    | none => none
    | some r1 =>
      match dropWs r1 with
      | c :: r2 => if isSepChar c then some (dropWs r2) else none
      | [] => none
  match (wsSplits cs).findSome? att with
  | some r => r
  | none => cs

/-- Worker for `collapseWs` (a replaced run strictly shortens the
text). -/
def collapseWsAux : Nat → Str → Str
  | 0, cs => cs
  | n + 1, cs =>
    match cs with
    | [] => []
    | c :: cs2 =>
      if isPySpace c && firstIsWs cs2 then ' ' :: collapseWsAux n (dropWs cs2)
      else c :: collapseWsAux n cs2

/-- `re.sub(r"\s{2,}", " ", desc)` (`src/maps.py` line 200): replace
every run of two or more whitespace characters by one space (a single
whitespace character is kept as it is). -/
def collapseWs (cs : Str) : Str := collapseWsAux (cs.length + 1) cs

/-- The tail `NAME\s*[:\-–—]\s*(.+)$` of the labelled-line pattern
(`src/maps.py` line 139), after the bullet markers: the name matches
case-insensitively; `\s*` before the separator is maximal; after the
separator the greedy `\s*` backs off just enough to leave `(.+)` at
least one character — the group is the rest after the maximal
whitespace run if that rest is non-empty, otherwise the run's last
character. -/
def nameSepGroup (name cs : Str) : Option Str :=
  match matchLitCI name cs with
  | none => none
  | some r1 =>
    match dropWs r1 with
    | c :: r2 =>
      if isSepChar c then
        let r3 := dropWs r2
        if r3 = [] then
          match r2.getLast? with
          | some l => some [l]
          | none => none
        else some r3
      else none
    | [] => none

/-- The bullet-marker loop `(?:\*\*|\*|\-|•\s*)*` of the labelled-line
pattern (`src/maps.py` line 139), with the regex's backtracking order:
a further iteration is preferred over exiting the loop, the iteration
alternatives are tried in pattern order (`**`, `*`, `-`, `•` with its
inner `\s*` greedy), and on loop exit the name tail is attempted at the
current position. -/
def markerLoopAux (name : Str) : Nat → Str → Option Str
  | 0, cs => nameSepGroup name cs
  | n + 1, cs =>
    match cs with
    | '*' :: '*' :: r =>
      markerLoopAux name n r <|> markerLoopAux name n ('*' :: r) <|>
        nameSepGroup name cs
    | '*' :: r => markerLoopAux name n r <|> nameSepGroup name cs
    | '-' :: r => markerLoopAux name n r <|> nameSepGroup name cs
    | '•' :: r =>
      ((wsSplits r).findSome? (fun t => markerLoopAux name n t)) <|>
        nameSepGroup name cs
    | _ => nameSepGroup name cs

/-- Entry point for the marker loop.  Every recursive call passes a
strictly shorter string (each iteration consumes at least one marker
character; the whitespace candidates after a bullet are suffixes of the
text after that bullet), so fuel `cs.length + 1` cannot run out. -/
def markerLoop (name cs : Str) : Option Str := markerLoopAux name (cs.length + 1) cs

/-- One `label_re.match(ln)` (`src/maps.py` lines 139-141): the pattern
is anchored at the line start, with the leading `\s*` backtracked
greedily. -/
def strat1Line (name line : Str) : Option Str :=
  (wsSplits line).findSome? (fun t => markerLoop name t)

/-- The labelled-line strategy (`src/maps.py` lines 139-144): the first
line whose match succeeds contributes its stripped group (and the loop
breaks there even when the stripped group is empty, which downstream
code treats like no candidate). -/
def strat1 (name : Str) (lines : List Str) : Str :=
  match lines.findSome? (fun ln => strat1Line name ln) with
  | some g => pyStrip g
  | none => []

/-- The group tail `\s*[:\-–—]?\s*(.+)` of the bulleted-label pattern
(`src/maps.py` line 146): maximal whitespace, preferably one separator,
maximal whitespace, then at least one character.  When everything left
is whitespace the greedy `\s*` backs off one character; when a lone
separator remains, the optional separator is dropped and the group
becomes that character. -/
def strat2Tail (u : Str) : Option Str :=
  match dropWs u with
  | [] =>
    match u.getLast? with
    | some l => some [l]
    | none => none
  | c :: v =>
    if isSepChar c then
      let v1 := dropWs v
      if v1 = [] then
        match v.getLast? with
        | some l => some [l]
        | none => some (c :: v)
      else some v1
    else some (c :: v)

/-- One attempt, at a position in a line, of the bulleted-label pattern
`(?mi)\*\s*\*\*?\s*NAME\*\*?\s*[:\-–—]?\s*(.+)` (`src/maps.py`
line 146): a literal `'*'`; maximal whitespace (followed by a `'*'`,
never whitespace); one or two `'*'` (two preferred); a backtracked
`\s*`; the name, case-insensitively; one or two `'*'` (two preferred);
then the tail. -/
def strat2At (name cs : Str) : Option Str :=
  let afterName : Str → Option Str := fun r5 =>
    match r5 with
    | '*' :: '*' :: r6 => strat2Tail r6 <|> strat2Tail ('*' :: r6)
    | '*' :: r6 => strat2Tail r6
    | _ => none
  let withName : Str → Option Str := fun r3 =>
    (wsSplits r3).findSome? (fun r4 =>
      match matchLitCI name r4 with
      | none => none
      | some r5 => afterName r5)
  match cs with
  | '*' :: r1 =>
    match dropWs r1 with
    | '*' :: '*' :: r3 => withName r3 <|> withName ('*' :: r3)
    | '*' :: r3 => withName r3
    | _ => none
  | _ => none

/-- `pattern.search(ln)` for the bulleted-label pattern: leftmost match
position wins. -/
def strat2Search (name : Str) : Str → Option Str
  | [] => none
  | c :: cs =>
    match strat2At name (c :: cs) with
    | some g => some g
    | none => strat2Search name cs

/-- The bulleted-label strategy (`src/maps.py` lines 145-151). -/
def strat2 (name : Str) (lines : List Str) : Str :=
  match lines.findSome? (fun ln => strat2Search name ln) with
  | some g => pyStrip g
  | none => []

/-- The alias table of `src/maps.py` lines 129-133. -/
def aliasMap : List (Str × List Str) :=
  [("colosseum".data, ["colosseo".data, "il colosseo".data, "colosseum".data]),
   ("grand palace".data, ["grand palace".data, "the grand palace".data]),
   ("eiffel tower".data,
    ["eiffel tower".data, "la tour eiffel".data, "tour eiffel".data])]

/-- `alias_map.get(name_l, [])`. -/
def aliasFor (nameL : Str) : List Str :=
  match aliasMap.find? (fun p => p.1 = nameL) with
  | some p => p.2
  | none => []

/-- The plain sentence/paragraph test, first pass (`src/maps.py`
lines 154 and 165): the lower-cased name, or any alias, occurs in the
shadow text. -/
def matchPlain (nameL shadow : Str) : Bool :=
  containsSub shadow nameL || (aliasFor nameL).any (fun a => containsSub shadow a)

/-- The accent-stripped test, second pass (`src/maps.py` lines 159
and 171). -/
def matchNorm (nameL nameN shadow : Str) : Bool :=
  containsSub shadow nameN ||
  (aliasFor nameL).any (fun a => containsSub shadow (stripAccents a))

/-- First element of `orig` whose same-index shadow satisfies `pred`
(the `for idx, s in enumerate(...)` loops of strategy 3). -/
def firstMatchPair (pred : Str → Bool) : List Str → List Str → Option Str
  | o :: os, s :: ss => if pred s then some o else firstMatchPair pred os ss
  | _, _ => none

/-- The token list of the overlap fallback (`src/maps.py` line 175):
the `\w+` runs of the accent-stripped lower-cased name, keeping only
words longer than two characters. -/
def nameTokens (nameN : Str) : List Str :=
  (wordRuns nameN).filter (fun t => 2 < t.length)

/-- The score of one sentence (`src/maps.py` lines 182-183): tokens
contained in the normalised sentence, over `max 1 (token count)`;
Python's float division is modelled exactly on ℚ. -/
def scoreOf (toks : List Str) (sNorm : Str) : ℚ :=
  mkRat (toks.countP (fun t => containsSub sNorm t)) (max 1 toks.length)

/-- The selection loop of `src/maps.py` lines 176-186: running best
score with strict improvement (so the first index attaining the
maximum wins), skipping sentences whose lower-cased form is empty. -/
def bestLoop (toks : List Str) :
    List (Str × Str) → Nat → ℚ → Option Nat → ℚ × Option Nat
  | [], _, best, bidx => (best, bidx)
  | (sL, sN) :: rest, idx, best, bidx =>
    if sL = [] then bestLoop toks rest (idx + 1) best bidx
    else
      let sc := scoreOf toks sN
      if best < sc then bestLoop toks rest (idx + 1) sc (some idx)
      else bestLoop toks rest (idx + 1) best bidx

/-- The token-overlap fallback (`src/maps.py` lines 174-188): the best
sentence's stripped text when its score reaches 0.4 and some sentence
improved on the initial score of 0. -/
def strat5 (sentences lowerS normS : List Str) (toks : List Str) : Str :=
  let r := bestLoop toks (lowerS.zip normS) 0 0 none
  if mkRat 2 5 ≤ r.1 then
    match r.2 with
    | some i => pyStrip (sentences.getD i [])
    | none => []
  else []

/-- The comma clauses of `src/maps.py` line 119:
`[p.strip() for p in s.split(',') if p.strip()]`. -/
def clausesOf (u : Str) : List Str :=
  ((splitSep [','] u).map pyStrip).filter (fun c => c ≠ [])

/-- The `short` candidate of `src/maps.py` lines 120-123: the first two
comma clauses joined by `", "`, or the only clause, or the whole text
when there is no clause. -/
def shortOf (u : Str) : Str :=
  if 2 ≤ (clausesOf u).length then joinWith (',' :: ' ' :: []) ((clausesOf u).take 2)
  else
    match clausesOf u with
    | c :: _ => c
    | [] => u

/-- `shortify` (`src/maps.py` lines 109-127). -/
def shortify (s0 : Str) (maxWords : Nat) : Str :=
  let s := pyStrip s0
  if s = [] then s
  else if (pySplitWs s).length ≤ maxWords then s
  else
    let parts := sentSplit s
    if parts ≠ [] ∧ (pySplitWs (parts.headD [])).length ≤ maxWords then
      pyStrip (parts.headD []) ++ "...".data
    else
      let short := shortOf s
      if maxWords < (pySplitWs short).length then
        joinSpace ((pySplitWs short).take maxWords) ++ "...".data
      else short ++ "...".data

/-- The search structures built by `get_location_summaries`
(`src/maps.py` lines 97-107) from the text. -/
structure SumEnv where
  sentences : List Str
  lowerSentences : List Str
  lowerSentencesNorm : List Str
  lines : List Str
  paragraphs : List Str

/-- Lines 97-107 of `src/maps.py`: remove COORDINATES blocks and triple
lines, then split into sentences (with lower-cased and accent-stripped
shadows), stripped non-empty lines, and stripped non-empty paragraphs. -/
def mkEnv (text : Str) : SumEnv :=
  let c2 := removeTripleLines (removeCoordBlocks text)
  let sentences := sentSplit c2
  let lower := sentences.map pyLower
  { sentences := sentences
    lowerSentences := lower
    lowerSentencesNorm := lower.map stripAccents
    lines := ((pyLines c2).map pyStrip).filter (fun l => l ≠ [])
    paragraphs :=
      ((splitSep ('\n' :: '\n' :: []) c2).map pyStrip).filter (fun p => p ≠ []) }

/-- Strategies 1-4 of `get_location_summaries` (`src/maps.py` lines
139-173) in priority order: the candidate description before the
token-overlap fallback (the empty string mirrors Python's falsy `""`,
including a strategy that matched but stripped to nothing). -/
def candBefore5 (env : SumEnv) (name : Str) : Str :=
  let nameL := pyLower name
  let nameN := stripAccents nameL
  let d1 := strat1 name env.lines
  if d1 ≠ [] then d1 else
  let d2 := strat2 name env.lines
  if d2 ≠ [] then d2 else
  let d3a :=
    match firstMatchPair (fun s => matchPlain nameL s)
        env.sentences env.lowerSentences with
    | some s => pyStrip s
    | none => []
  let d3 :=
    if d3a ≠ [] then d3a else
    match firstMatchPair (fun s => matchNorm nameL nameN s)
        env.sentences env.lowerSentencesNorm with
    | some s => pyStrip s
    | none => []
  if d3 ≠ [] then d3 else
  let d4a :=
    match env.paragraphs.find? (fun p => matchPlain nameL (pyLower p)) with
    | some p => pyStrip (p.takeWhile (fun c => !(c = '\n')))
    | none => []
  if d4a ≠ [] then d4a else
  match env.paragraphs.find?
      (fun p => matchNorm nameL nameN (stripAccents (pyLower p))) with
  | some p => pyStrip (p.takeWhile (fun c => !(c = '\n')))
  | none => []

/-- The full strategy chain (`src/maps.py` lines 139-188). -/
def candidate (env : SumEnv) (name : Str) : Str :=
  let c4 := candBefore5 env name
  if c4 ≠ [] then c4
  else
    strat5 env.sentences env.lowerSentences env.lowerSentencesNorm
      (nameTokens (stripAccents (pyLower name)))

/-- The fixed fallback literal of `src/maps.py` line 206. -/
def fallbackStr : Str := "No short description available.".data

/-- Lines 189-206 of `src/maps.py`: clean a found candidate, discard it
when the cleaned text is empty, equals the lower-cased name, or has
fewer than three words, otherwise shorten it to ten words; fall back to
the fixed literal when nothing is left. -/
def cleanDesc (name d0 : Str) : Str :=
  pyStrip (collapseWs (subLeadNamePrefix name (subLeadLabels (subLeadNonWord
    (subLeadHeading (subItal (subBold (subCoordFrag d0))))))))

/-- The per-name result of `get_location_summaries`' loop body. -/
def postProcess (name cand : Str) : Str :=
  let d :=
    if cand ≠ [] then
      let c := cleanDesc name cand
      if c = [] ∨ pyLower c = pyLower name ∨ (pySplitWs c).length < 3 then []
      else shortify c 10
    else []
  if d = [] then fallbackStr else d

/-- One loop iteration of `get_location_summaries` for one name. -/
def summarizeOne (env : SumEnv) (name : Str) : Str :=
  postProcess name (candidate env name)

/-- A `{"name": ..., "desc": ...}` summary record. -/
structure SummaryRecord where
  name : String
  desc : String
deriving DecidableEq, Repr

/-- `get_location_summaries` (`src/maps.py` lines 93-208).  The
`maxLen` parameter mirrors the source's `max_len=140`, which the body
never reads.  The loop appends exactly one record per name and carries
no other state, hence the map. -/
def get_location_summaries (text : String) (names : List String)
    (maxLen : Nat) : List SummaryRecord :=
  if text.data = [] ∨ names = [] then []
  else
    let env := mkEnv text.data
    names.map (fun n => { name := n, desc := ⟨summarizeOne env n.data⟩ })

/-- The first not-found phrase of `src/ai.py` line 135. -/
def phraseBriefing : Str := "not in this specific briefing".data

/-- The second not-found phrase of `src/ai.py` line 135. -/
def phraseNoShort : Str := "no short description".data

/-- The fallback literal of `src/ai.py` lines 136 and 143. -/
def aiFallback : String := "No short description available."

/-- `generate_place_summary` (`src/ai.py` lines 130-143), as a function
of the external `run_gen_response` outcome: `Except.error` models the
LLM call raising any exception inside the `try` block (the
sanitisation code after the call is total, so the call is the only
failure source), `Except.ok r` models it returning the text `r`. -/
def generate_place_summary (resp : Except Unit String) : String :=
  match resp with
  | .error _ => aiFallback
  | .ok r =>
    let clean := pyStrip r.data
    if clean = [] ∨ containsSub (pyLower clean) phraseBriefing = true ∨
        containsSub (pyLower clean) phraseNoShort = true then aiFallback
    else
      let firstLine := (pyLines clean).headD []
      let words := pySplitWs firstLine
      if 15 < words.length then ⟨joinSpace (words.take 15) ++ "...".data⟩
      else ⟨firstLine⟩

/-- Follows the claim's words for `generate_place_summary`: take the
first line of the stripped response FIRST, and test that line (not the
whole response) for emptiness and for the not-found phrases; then
truncate the line to 15 words. -/
def spec_sanitize (resp : Except Unit String) : String :=
  match resp with
  | .error _ => aiFallback
  | .ok r =>
    let clean := pyStrip r.data
    let firstLine := (pyLines clean).headD []
    if firstLine = [] ∨ containsSub (pyLower firstLine) phraseBriefing = true ∨
        containsSub (pyLower firstLine) phraseNoShort = true then aiFallback
    else
      let words := pySplitWs firstLine
      if 15 < words.length then ⟨joinSpace (words.take 15) ++ "...".data⟩
      else ⟨firstLine⟩

/-! ## Lemmas about the string primitives -/

/-- No character of `l` is whitespace. -/
abbrev noWsIn (l : Str) : Prop := ∀ c ∈ l, isPySpace c = false

/-- Every character of `l` is whitespace. -/
abbrev allWsIn (l : Str) : Prop := ∀ c ∈ l, isPySpace c = true

theorem takeWhile_append_of_all {p : Char → Bool} {l : Str} (t : Str)
    (h : ∀ c ∈ l, p c = true) :
    (l ++ t).takeWhile p = l ++ t.takeWhile p := by
  induction l with
  | nil => simp
  | cons c cs ih =>
    have hc := h c (by simp)
    simp only [List.cons_append, List.takeWhile_cons, hc, if_true]
    rw [ih (fun d hd => h d (by simp [hd]))]

theorem dropWhile_append_of_all {p : Char → Bool} {l : Str} (t : Str)
    (h : ∀ c ∈ l, p c = true) :
    (l ++ t).dropWhile p = t.dropWhile p := by
  induction l with
  | nil => simp
  | cons c cs ih =>
    have hc := h c (by simp)
    simp only [List.cons_append, List.dropWhile_cons, hc, if_true]
    exact ih (fun d hd => h d (by simp [hd]))

theorem dropWhile_eq_self_of_none {p : Char → Bool} {l : Str}
    (h : ∀ c ∈ l, p c = false) : l.dropWhile p = l := by
  cases l with
  | nil => rfl
  | cons c cs => simp [List.dropWhile_cons, h c (by simp)]

theorem dropWs_eq_self (l : Str) (h : noWsIn l) : dropWs l = l :=
  dropWhile_eq_self_of_none h

theorem pyStrip_eq_self (l : Str) (h : noWsIn l) : pyStrip l = l := by
  unfold pyStrip
  rw [dropWs_eq_self l.reverse (fun c hc => h c (List.mem_reverse.mp hc)),
    List.reverse_reverse, dropWs_eq_self l h]

theorem splitWsAcc_allWs (t : Str) (ht : allWsIn t) :
    ∀ acc, splitWsAcc t acc = if acc = [] then [] else [acc.reverse] := by
  induction t with
  | nil => intro acc; rfl
  | cons c cs ih =>
    intro acc
    have hc := ht c (by simp)
    have ih2 := ih (fun d hd => ht d (by simp [hd])) []
    by_cases hacc : acc = [] <;>
      simp [splitWsAcc, hc, hacc, ih2]

theorem splitWsAcc_noWs (t : Str) (ht : noWsIn t) :
    ∀ acc, splitWsAcc t acc =
      if acc = [] ∧ t = [] then [] else [acc.reverse ++ t] := by
  induction t with
  | nil =>
    intro acc
    by_cases hacc : acc = [] <;> simp [splitWsAcc, hacc]
  | cons c cs ih =>
    intro acc
    have hc := ht c (by simp)
    have ih2 := ih (fun d hd => ht d (by simp [hd])) (c :: acc)
    simp only [splitWsAcc, hc, Bool.false_eq_true, if_false, ih2]
    simp [List.append_assoc]

theorem splitWsAcc_append_allWs (cs t : Str) (ht : allWsIn t) :
    ∀ acc, splitWsAcc (cs ++ t) acc = splitWsAcc cs acc := by
  induction cs with
  | nil =>
    intro acc
    rw [List.nil_append, splitWsAcc_allWs t ht acc]
    rfl
  | cons c cs2 ih =>
    intro acc
    by_cases hc : isPySpace c = true <;>
      by_cases hacc : acc = [] <;>
        simp [splitWsAcc, hc, hacc, ih]

theorem splitWsAcc_word (w : Str) (hw : noWsIn w) :
    ∀ r acc, splitWsAcc (w ++ r) acc = splitWsAcc r (w.reverse ++ acc) := by
  induction w with
  | nil => intro r acc; simp
  | cons c w2 ih =>
    intro r acc
    have hc := hw c (by simp)
    have ih2 := ih (fun d hd => hw d (by simp [hd])) r (c :: acc)
    simp [splitWsAcc, hc, ih2, List.append_assoc]

theorem splitWsAcc_elem (cs : Str) :
    ∀ acc, noWsIn acc → ∀ w ∈ splitWsAcc cs acc, w ≠ [] ∧ noWsIn w := by
  induction cs with
  | nil =>
    intro acc hacc w hw
    by_cases h : acc = []
    · simp [splitWsAcc, h] at hw
    · simp only [splitWsAcc, h, if_false, List.mem_singleton] at hw
      subst hw
      exact ⟨by simpa using h, fun c hc => hacc c (List.mem_reverse.mp hc)⟩
  | cons c cs2 ih =>
    intro acc hacc w hw
    by_cases hc : isPySpace c = true
    · by_cases h : acc = []
      · simp only [splitWsAcc, hc, if_true, h, if_pos rfl] at hw
        exact ih [] (by intro d hd; cases hd) w (by simpa [h] using hw)
      · simp only [splitWsAcc, hc, if_true, h, if_false, List.mem_cons] at hw
        rcases hw with hw | hw
        · subst hw
          exact ⟨by simpa using h, fun d hd => hacc d (List.mem_reverse.mp hd)⟩
        · exact ih [] (by intro d hd; cases hd) w hw
    · simp only [splitWsAcc, hc, if_false] at hw
      refine ih (c :: acc) ?_ w hw
      intro d hd
      rcases List.mem_cons.mp hd with h | h
      · subst h; simpa using hc
      · exact hacc d h

theorem pySplitWs_elem (cs : Str) : ∀ w ∈ pySplitWs cs, w ≠ [] ∧ noWsIn w :=
  splitWsAcc_elem cs [] (by intro d hd; cases hd)

theorem pySplitWs_dropWs (l : Str) : pySplitWs (dropWs l) = pySplitWs l := by
  induction l with
  | nil => rfl
  | cons c cs ih =>
    by_cases hc : isPySpace c = true
    · have : dropWs (c :: cs) = dropWs cs := by simp [dropWs, List.dropWhile_cons, hc]
      rw [this, ih]
      simp [pySplitWs, splitWsAcc, hc]
    · simp [dropWs, List.dropWhile_cons, hc]

theorem pySplitWs_strip (l : Str) : pySplitWs (pyStrip l) = pySplitWs l := by
  have hdec : l = (dropWs l.reverse).reverse ++ (takeWs l.reverse).reverse := by
    have h := List.takeWhile_append_dropWhile (p := isPySpace) (l := l.reverse)
    calc l = l.reverse.reverse := (List.reverse_reverse l).symm
    _ = (takeWs l.reverse ++ dropWs l.reverse).reverse := by
          simp only [takeWs, dropWs]; rw [h]
    _ = (dropWs l.reverse).reverse ++ (takeWs l.reverse).reverse := by
          rw [List.reverse_append]
  have hws : allWsIn (takeWs l.reverse).reverse := by
    intro c hc
    exact List.mem_takeWhile_imp (List.mem_reverse.mp hc)
  calc pySplitWs (pyStrip l) = pySplitWs ((dropWs l.reverse).reverse) :=
        pySplitWs_dropWs _
  _ = pySplitWs ((dropWs l.reverse).reverse ++ (takeWs l.reverse).reverse) :=
        (splitWsAcc_append_allWs _ _ hws []).symm
  _ = pySplitWs l := by rw [← hdec]

theorem getLast?_cons_ne {c : Char} {l : Str} (h : l ≠ []) :
    (c :: l).getLast? = l.getLast? := by
  cases l with
  | nil => exact absurd rfl h
  | cons d l2 => simp [List.getLast?_cons_cons]

theorem pySplitWs_join (ws : List Str) (h : ∀ w ∈ ws, w ≠ [] ∧ noWsIn w) :
    pySplitWs (joinWith [' '] ws) = ws := by
  induction ws with
  | nil => rfl
  | cons w rest ih =>
    cases rest with
    | nil =>
      obtain ⟨hne, hnw⟩ := h w (by simp)
      show pySplitWs w = [w]
      unfold pySplitWs
      rw [splitWsAcc_noWs w hnw []]
      simp [hne]
    | cons w2 rest2 =>
      obtain ⟨hne, hnw⟩ := h w (by simp)
      have hrw : List.reverse w ≠ [] := by simpa using hne
      simp only [joinWith]
      unfold pySplitWs
      rw [show w ++ [' '] ++ joinWith [' '] (w2 :: rest2) =
        w ++ (' ' :: joinWith [' '] (w2 :: rest2)) by simp]
      rw [splitWsAcc_word w hnw]
      simp only [List.append_nil]
      simp only [splitWsAcc, show isPySpace ' ' = true from rfl, if_true, hrw,
        if_false, List.reverse_reverse]
      rw [show splitWsAcc (joinWith [' '] (w2 :: rest2)) [] =
        pySplitWs (joinWith [' '] (w2 :: rest2)) from rfl,
        ih (fun v hv => h v (by simp [hv]))]

theorem splitWsAcc_ne_nil (cs : Str) :
    ∀ acc, acc ≠ [] → splitWsAcc cs acc ≠ [] := by
  induction cs with
  | nil => intro acc hacc; simp [splitWsAcc, hacc]
  | cons c cs2 ih =>
    intro acc hacc
    by_cases hc : isPySpace c = true
    · simp [splitWsAcc, hc, hacc]
    · simp only [splitWsAcc, hc, Bool.false_eq_true, if_false]
      exact ih (c :: acc) (by simp)

theorem pySplitWs_ne_nil (l : Str) (c : Char) (hh : l.head? = some c)
    (hc : isPySpace c = false) : pySplitWs l ≠ [] := by
  cases l with
  | nil => simp at hh
  | cons d rest =>
    have hdc : d = c := by simpa using hh
    show splitWsAcc (d :: rest) [] ≠ []
    simp only [splitWsAcc, hdc, hc, Bool.false_eq_true, if_false]
    exact splitWsAcc_ne_nil rest [c] (by simp)

theorem splitWsAcc_append_len (t : Str) (htne : t ≠ []) (htnw : noWsIn t) :
    ∀ cs acc, (cs = [] → acc ≠ []) →
      (∀ c, cs.getLast? = some c → isPySpace c = false) →
      (splitWsAcc (cs ++ t) acc).length = (splitWsAcc cs acc).length := by
  intro cs
  induction cs with
  | nil =>
    intro acc hacc _
    have hacc2 := hacc rfl
    rw [List.nil_append, splitWsAcc_noWs t htnw acc]
    simp [splitWsAcc, hacc2, htne]
  | cons c cs2 ih =>
    intro acc hacc hlast
    by_cases hc : isPySpace c = true
    · have hcs2 : cs2 ≠ [] := by
        intro he
        subst he
        have h2 := hlast c (by simp)
        rw [h2] at hc
        cases hc
      have hl2 : ∀ d, cs2.getLast? = some d → isPySpace d = false := by
        intro d hd
        exact hlast d (by rw [getLast?_cons_ne hcs2, hd])
      by_cases hacc2 : acc = [] <;>
        simp [splitWsAcc, hc, hacc2, ih [] (fun h2 => absurd h2 hcs2) hl2]
    · have hl2 : ∀ d, cs2.getLast? = some d → isPySpace d = false := by
        intro d hd
        rcases List.eq_nil_or_concat cs2 with he | _
        · subst he; simp at hd
        · have hne : cs2 ≠ [] := by
            intro h2; subst h2; simp at hd
          exact hlast d (by rw [getLast?_cons_ne hne, hd])
      simp only [List.cons_append, splitWsAcc, hc, Bool.false_eq_true, if_false]
      exact ih (c :: acc) (fun _ => by simp) hl2

theorem dropWhile_head_not {p : Char → Bool} :
    ∀ (l : Str) c, (l.dropWhile p).head? = some c → p c = false := by
  intro l
  induction l with
  | nil => intro c h; simp at h
  | cons d l2 ih =>
    intro c h
    by_cases hd : p d = true
    · exact ih c (by simpa [List.dropWhile_cons, hd] using h)
    · rw [List.dropWhile_cons, if_neg (by simp [hd])] at h
      have : d = c := by simpa using h
      subst this
      simpa using hd

theorem strip_getLast (l : Str) (c : Char) (h : (pyStrip l).getLast? = some c) :
    isPySpace c = false := by
  unfold pyStrip at h
  set z := (dropWs l.reverse).reverse with hz
  have hne : dropWs z ≠ [] := by
    intro he; rw [he] at h; simp at h
  have hzdec : z = takeWs z ++ dropWs z :=
    (List.takeWhile_append_dropWhile (p := isPySpace) (l := z)).symm
  have h1 : z.getLast? = some c := by
    rw [hzdec, List.getLast?_append_of_ne_nil (takeWs z) hne]
    exact h
  have h2 : z.getLast? = (dropWs l.reverse).head? := by
    rw [hz, List.getLast?_reverse]
  rw [h2] at h1
  exact dropWhile_head_not l.reverse c h1

theorem tokens_append_dots (l : Str) (hne : l ≠ [])
    (hlast : ∀ c, l.getLast? = some c → isPySpace c = false) :
    (pySplitWs (l ++ "...".data)).length = (pySplitWs l).length :=
  splitWsAcc_append_len "...".data (by decide) (by decide) l []
    (fun h => absurd h hne) hlast

theorem tokens_strip_dots (x : Str) :
    (pySplitWs (pyStrip x ++ "...".data)).length = max 1 (pySplitWs x).length := by
  by_cases h : pyStrip x = []
  · have hx : pySplitWs x = [] := by rw [← pySplitWs_strip, h]; rfl
    rw [h, hx]
    decide
  · have hl := tokens_append_dots (pyStrip x) h (fun c hc => strip_getLast x c hc)
    rw [hl, pySplitWs_strip]
    have hne2 : pySplitWs x ≠ [] := by
      rw [← pySplitWs_strip]
      cases hh : (pyStrip x).head? with
      | none =>
        cases hx : pyStrip x with
        | nil => exact absurd hx h
        | cons a b => rw [hx] at hh; simp at hh
      | some c =>
        refine pySplitWs_ne_nil _ c hh ?_
        have hd : (dropWs ((dropWs x.reverse).reverse)).head? = some c := hh
        exact dropWhile_head_not _ c hd
    have hlen : 1 ≤ (pySplitWs x).length := List.length_pos.mpr hne2
    omega

theorem isSubAt_append_self : ∀ (l z : Str), isSubAt l (l ++ z) = true := by
  intro l z
  induction l with
  | nil => rfl
  | cons c cs ih => simpa [isSubAt] using ih

theorem endsWith_dots (y : Str) : pyEndsWith (y ++ "...".data) "...".data = true := by
  unfold pyEndsWith
  rw [List.reverse_append]
  exact isSubAt_append_self _ _

theorem sentSplitAux_ne_nil : ∀ n cs, sentSplitAux n cs ≠ [] := by
  intro n
  induction n with
  | zero => intro cs; simp [sentSplitAux]
  | succ n ih =>
    intro cs
    cases cs with
    | nil => simp [sentSplitAux]
    | cons c cs2 =>
      simp only [sentSplitAux]
      split
      · simp
      · split
        · simp
        · simp

theorem sentSplit_ne_nil (cs : Str) : sentSplit cs ≠ [] := sentSplitAux_ne_nil _ _

theorem joinWith_ne_nil (sep : Str) (lst : List Str) (hne : lst ≠ [])
    (h : ∀ w ∈ lst, w ≠ []) : joinWith sep lst ≠ [] := by
  cases lst with
  | nil => exact absurd rfl hne
  | cons w rest =>
    cases rest with
    | nil => exact h w (by simp)
    | cons w2 rest2 =>
      have hw := h w (by simp)
      simp only [joinWith]
      intro hcontra
      exact hw (List.append_eq_nil.mp (List.append_eq_nil.mp hcontra).1).1

theorem joinWith_getLast (sep : Str) :
    ∀ (lst : List Str), (∀ w ∈ lst, w ≠ []) → lst ≠ [] →
      ∀ c, (joinWith sep lst).getLast? = some c → ∃ w ∈ lst, w.getLast? = some c := by
  intro lst
  induction lst with
  | nil => intro _ hne; exact absurd rfl hne
  | cons w rest ih =>
    intro h _ c hc
    cases rest with
    | nil => exact ⟨w, by simp, hc⟩
    | cons w2 rest2 =>
      have hjoin : joinWith sep (w2 :: rest2) ≠ [] :=
        joinWith_ne_nil sep _ (by simp) (fun v hv => h v (by simp [hv]))
      simp only [joinWith] at hc
      rw [List.append_assoc,
        List.getLast?_append_of_ne_nil w
          (by intro h2; exact hjoin (List.append_eq_nil.mp h2).2),
        List.getLast?_append_of_ne_nil sep hjoin] at hc
      obtain ⟨v, hv, hvc⟩ := ih (fun v hv => h v (by simp [hv])) (by simp) c hc
      exact ⟨v, by simp [hv], hvc⟩

/-- Every clause built at `src/maps.py` line 119 is non-empty and ends in
a non-whitespace character (it is a stripped, filtered piece). -/
theorem clause_elem (s : Str) :
    ∀ cl ∈ clausesOf s,
      cl ≠ [] ∧ ∀ c, cl.getLast? = some c → isPySpace c = false := by
  unfold clausesOf
  intro cl hcl
  rw [List.mem_filter] at hcl
  obtain ⟨hmem, hne⟩ := hcl
  obtain ⟨p, _, hp⟩ := List.mem_map.mp hmem
  refine ⟨by simpa using hne, ?_⟩
  intro c hc
  rw [← hp] at hc
  exact strip_getLast p c hc

theorem mem_of_getLast?_eq {l : Str} {c : Char} (h : l.getLast? = some c) :
    c ∈ l := by
  obtain ⟨hne, heq⟩ := List.mem_getLast?_eq_getLast (l := l) (x := c) (by simp [h])
  rw [heq]
  exact List.getLast_mem hne

/-- The `short` candidate is non-empty and ends in a non-whitespace
character, whenever the underlying text does. -/
theorem shortOf_good (u : Str) (hu : u ≠ [])
    (hlast : ∀ c, u.getLast? = some c → isPySpace c = false) :
    shortOf u ≠ [] ∧ ∀ c, (shortOf u).getLast? = some c → isPySpace c = false := by
  unfold shortOf
  split_ifs with h2
  · have htake : ∀ cl ∈ (clausesOf u).take 2, cl ≠ [] :=
      fun cl hcl => (clause_elem u cl (List.mem_of_mem_take hcl)).1
    have htne : (clausesOf u).take 2 ≠ [] := by
      intro he
      have := congrArg List.length he
      rw [List.length_take] at this
      simp only [List.length_nil] at this
      omega
    refine ⟨joinWith_ne_nil _ _ htne htake, ?_⟩
    intro c hc
    obtain ⟨w, hw, hwc⟩ := joinWith_getLast _ _ htake htne c hc
    exact (clause_elem u w (List.mem_of_mem_take hw)).2 c hwc
  · cases hcl : clausesOf u with
    | nil => simpa [hcl] using ⟨hu, hlast⟩
    | cons cl rest =>
      simp only [hcl]
      have := clause_elem u cl (by rw [hcl]; simp)
      exact ⟨this.1, this.2⟩

/-- The hard-truncation branch of `shortify` yields exactly ten
whitespace tokens, the ellipsis glued to the last. -/
theorem truncTen_tokens (short : Str)
    (h : 10 < (pySplitWs short).length) :
    (pySplitWs (joinSpace ((pySplitWs short).take 10) ++ "...".data)).length = 10 := by
  set lst := (pySplitWs short).take 10 with hlst
  have hgood : ∀ w ∈ lst, w ≠ [] ∧ noWsIn w :=
    fun w hw => pySplitWs_elem short w (List.mem_of_mem_take hw)
  have hlen : lst.length = 10 := by
    rw [hlst, List.length_take]
    omega
  have hne : lst ≠ [] := by
    intro he
    rw [he] at hlen
    simp at hlen
  have hjoin : pySplitWs (joinWith [' '] lst) = lst := pySplitWs_join lst hgood
  have hjoinne : joinWith [' '] lst ≠ [] :=
    joinWith_ne_nil _ _ hne (fun w hw => (hgood w hw).1)
  have hjlast : ∀ c, (joinWith [' '] lst).getLast? = some c → isPySpace c = false := by
    intro c hc
    obtain ⟨w, hw, hwc⟩ :=
      joinWith_getLast _ _ (fun w hw2 => (hgood w hw2).1) hne c hc
    exact (hgood w hw).2 c (mem_of_getLast?_eq hwc)
  show (pySplitWs (joinWith [' '] lst ++ "...".data)).length = 10
  rw [tokens_append_dots _ hjoinne hjlast, hjoin, hlen]

theorem shortify_tokens (s : Str) :
    (pySplitWs (shortify s 10)).length ≤ 10 := by
  simp only [shortify]
  split_ifs with h1 h2 h3 h4
  · rw [h1]
    decide
  · exact h2
  · rw [tokens_strip_dots]
    have := h3.2
    omega
  · rw [truncTen_tokens _ h4]
  · obtain ⟨hne, hlast⟩ := shortOf_good (pyStrip s) h1 (strip_getLast s)
    rw [tokens_append_dots _ hne hlast]
    omega

theorem shortify_ne_nil (s : Str) (h3 : pySplitWs s ≠ []) :
    shortify s 10 ≠ [] := by
  simp only [shortify]
  split_ifs with h1 h2 hsent h4
  · rw [← pySplitWs_strip] at h3
    rw [h1] at h3
    exact absurd rfl h3
  · exact h1
  · intro hc
    exact (by decide : ("...".data : Str) ≠ [])
      (List.append_eq_nil.mp hc).2
  · intro hc
    exact (by decide : ("...".data : Str) ≠ [])
      (List.append_eq_nil.mp hc).2
  · intro hc
    exact (by decide : ("...".data : Str) ≠ [])
      (List.append_eq_nil.mp hc).2

theorem shortify_endsWith (s : Str) (h : 10 < (pySplitWs s).length) :
    pyEndsWith (shortify s 10) "...".data = true := by
  simp only [shortify]
  split_ifs with h1 h2 h3 h4
  · rw [← pySplitWs_strip, h1] at h
    simp [pySplitWs, splitWsAcc] at h
  · rw [← pySplitWs_strip] at h
    omega
  · exact endsWith_dots _
  · exact endsWith_dots _
  · exact endsWith_dots _

theorem shortify_firstSentence (s : Str) (h : 10 < (pySplitWs s).length)
    (hp : (pySplitWs ((sentSplit (pyStrip s)).headD [])).length ≤ 10) :
    shortify s 10 = pyStrip ((sentSplit (pyStrip s)).headD []) ++ "...".data := by
  simp only [shortify]
  split_ifs with h1 h2 h3
  · rw [← pySplitWs_strip, h1] at h
    simp [pySplitWs, splitWsAcc] at h
  · rw [← pySplitWs_strip] at h
    omega
  · rfl
  · exact absurd ⟨sentSplit_ne_nil _, hp⟩ h3
  · exact absurd ⟨sentSplit_ne_nil _, hp⟩ h3


theorem dig_not_ws {c : Char} (h : isDig c = true) : isPySpace c = false := by
  have hv : ('0' : Char) ≤ c ∧ c ≤ '9' := by
    simpa [isDig, Char.isDigit] using h
  by_contra hw
  rw [Bool.not_eq_false] at hw
  unfold isPySpace at hw
  simp only [Bool.or_eq_true, decide_eq_true_eq] at hw
  rcases hw with ((((hw | hw) | hw) | hw) | hw) | hw <;>
    (subst hw; exact absurd hv.1 (by decide))

theorem takeWhile_eq_self_of_all {p : Char → Bool} {l : Str}
    (h : ∀ c ∈ l, p c = true) : l.takeWhile p = l := by
  have h2 := takeWhile_append_of_all (p := p) (l := l) [] h
  simpa using h2

theorem dropWhile_eq_nil_of_all {p : Char → Bool} {l : Str}
    (h : ∀ c ∈ l, p c = true) : l.dropWhile p = [] := by
  have h2 := dropWhile_append_of_all (p := p) (l := l) [] h
  simpa using h2

theorem pySign_of_ne {c : Char} {cs : Str} (h1 : ¬(c = '-')) (h2 : ¬(c = '+')) :
    pySign (c :: cs) = (false, c :: cs) := by
  unfold pySign
  split
  · rename_i r heq
    injection heq with hc _
    exact absurd hc h1
  · rename_i r heq
    injection heq with hc _
    exact absurd hc h2
  · rfl

theorem dashSign_fst (cs : Str) :
    (dashSign cs).1 = [] ∨ (dashSign cs).1 = ['-'] := by
  unfold dashSign
  split
  · right; rfl
  · left; rfl

/-- `float()` succeeds on a signed digit run. -/
theorem pyFloat?_int (sgn d : Str) (hs : sgn = [] ∨ sgn = ['-'])
    (hd : d ≠ []) (hdig : ∀ c ∈ d, isDig c = true) :
    (pyFloat? (sgn ++ d)).isSome := by
  have hnw : noWsIn (sgn ++ d) := by
    intro c hc
    rcases List.mem_append.mp hc with h | h
    · rcases hs with h2 | h2 <;> subst h2
      · cases h
      · have h3 : c = '-' := by simpa using h
        subst h3; decide
    · exact dig_not_ws (hdig c h)
  rcases hs with h2 | h2 <;> subst h2
  · cases d with
    | nil => exact absurd rfl hd
    | cons c cs =>
      have hc := hdig c (by simp)
      simp only [List.nil_append] at hnw ⊢
      simp only [pyFloat?]
      rw [pyStrip_eq_self _ hnw]
      rw [pySign_of_ne (fun he => by subst he; exact absurd hc (by decide))
        (fun he => by subst he; exact absurd hc (by decide))]
      simp only [takeDigits]
      simp only [takeWhile_eq_self_of_all hdig, dropWhile_eq_nil_of_all hdig]
      simp
  · simp only [pyFloat?]
    rw [pyStrip_eq_self _ hnw]
    simp only [List.cons_append, List.nil_append]
    simp only [show pySign ('-' :: d) = (true, d) from rfl]
    simp only [takeDigits]
    simp only [takeWhile_eq_self_of_all hdig, dropWhile_eq_nil_of_all hdig]
    simp [hd]

/-- `float()` succeeds on a signed decimal with a fractional part. -/
theorem pyFloat?_dec (sgn d1 d2 : Str) (hs : sgn = [] ∨ sgn = ['-'])
    (h1 : d1 ≠ []) (hdig1 : ∀ c ∈ d1, isDig c = true)
    (hdig2 : ∀ c ∈ d2, isDig c = true) :
    (pyFloat? (sgn ++ (d1 ++ '.' :: d2))).isSome := by
  have hnw : noWsIn (sgn ++ (d1 ++ '.' :: d2)) := by
    intro c hc
    rcases List.mem_append.mp hc with h | h
    · rcases hs with h2 | h2 <;> subst h2
      · cases h
      · have h3 : c = '-' := by simpa using h
        subst h3; decide
    · rcases List.mem_append.mp h with h | h
      · exact dig_not_ws (hdig1 c h)
      · rcases List.mem_cons.mp h with h3 | h3
        · subst h3; decide
        · exact dig_not_ws (hdig2 c h3)
  have htk : (d1 ++ '.' :: d2).takeWhile isDig = d1 := by
    rw [takeWhile_append_of_all _ hdig1]
    simp [List.takeWhile_cons, isDig]
  have hdp : (d1 ++ '.' :: d2).dropWhile isDig = '.' :: d2 := by
    rw [dropWhile_append_of_all _ hdig1]
    simp [List.dropWhile_cons, isDig]
  rcases hs with h2 | h2 <;> subst h2
  · cases d1 with
    | nil => exact absurd rfl h1
    | cons c cs =>
      have hc := hdig1 c (by simp)
      simp only [List.nil_append] at hnw ⊢
      simp only [pyFloat?]
      rw [pyStrip_eq_self _ hnw]
      simp only [List.cons_append]
      have hne1 : ¬(c = '-') := fun he => by subst he; exact absurd hc (by decide)
      have hne2 : ¬(c = '+') := fun he => by subst he; exact absurd hc (by decide)
      simp only [pySign_of_ne hne1 hne2]
      simp only [takeDigits]
      simp only [show (c :: (cs ++ '.' :: d2) : Str) = (c :: cs) ++ '.' :: d2 by simp]
      simp only [htk, hdp]
      simp only [takeDigits, takeWhile_eq_self_of_all hdig2,
        dropWhile_eq_nil_of_all hdig2]
      simp [h1]
  · simp only [pyFloat?]
    rw [pyStrip_eq_self _ hnw]
    simp only [List.cons_append, List.nil_append]
    simp only [show pySign ('-' :: (d1 ++ '.' :: d2)) = (true, d1 ++ '.' :: d2) from rfl]
    simp only [takeDigits]
    simp only [htk, hdp]
    simp only [takeDigits, takeWhile_eq_self_of_all hdig2,
      dropWhile_eq_nil_of_all hdig2]
    simp [h1]

theorem parseNumCode_float (cs t r : Str) (h : parseNumCode cs = some (t, r)) :
    (pyFloat? t).isSome := by
  simp only [parseNumCode, takeDigits] at h
  have hsgn := dashSign_fst cs
  have hdig1 : ∀ c ∈ (dashSign cs).2.takeWhile isDig, isDig c = true :=
    fun c hc => List.mem_takeWhile_imp hc
  split at h
  · exact absurd h (by simp)
  · rename_i hne1
    split at h
    · rename_i t2 heq
      have hdig2 : ∀ c ∈ t2.takeWhile isDig, isDig c = true :=
        fun c hc => List.mem_takeWhile_imp hc
      split at h
      · split at h
        · injection h with h1
          injection h1 with ht _
          subst ht
          exact pyFloat?_int _ _ hsgn hne1 hdig1
        · exact absurd h (by simp)
      · injection h with h1
        injection h1 with ht _
        subst ht
        have h2 := pyFloat?_dec _ _ _ hsgn hne1 hdig1 hdig2
        rw [← List.append_assoc] at h2
        exact h2
    · split at h
      · injection h with h1
        injection h1 with ht _
        subst ht
        exact pyFloat?_int _ _ hsgn hne1 hdig1
      · exact absurd h (by simp)

theorem scanTripleTail_parse (cs n1 n2 r : Str)
    (h : scanTripleTail cs = some (n1, n2, r)) :
    (pyFloat? n1).isSome ∧ (pyFloat? n2).isSome := by
  unfold scanTripleTail at h
  split at h
  · exact absurd h (by simp)
  · rename_i m1 r1 heq1
    split at h
    · rename_i r2 heq2
      split at h
      · exact absurd h (by simp)
      · rename_i m2 r3 heq3
        injection h with h1
        injection h1 with hn1 h2
        injection h2 with hn2 _
        subst hn1
        subst hn2
        exact ⟨parseNumCode_float _ _ _ heq1, parseNumCode_float _ _ _ heq3⟩
    · exact absurd h (by simp)

theorem findTriplesAux_parse :
    ∀ n cs, ∀ m ∈ findTriplesAux n cs,
      (pyFloat? m.2.1).isSome ∧ (pyFloat? m.2.2).isSome := by
  intro n
  induction n with
  | zero => intro cs m hm; simp [findTriplesAux] at hm
  | succ n ih =>
    intro cs m hm
    simp only [findTriplesAux] at hm
    split at hm
    · simp at hm
    · split at hm
      · exact ih _ m hm
      · split at hm
        · rename_i n1 n2 rest heq
          rcases List.mem_cons.mp hm with h | h
          · subst h
            exact scanTripleTail_parse _ _ _ _ heq
          · exact ih _ m h
        · exact ih _ m hm

theorem findTriples_parse (cs : Str) :
    ∀ m ∈ findTriples cs,
      (pyFloat? m.2.1).isSome ∧ (pyFloat? m.2.2).isSome :=
  findTriplesAux_parse _ cs

theorem extractStep_eq (data : List LocationRecord) (m : Str × Str × Str) :
    extractStep data m = data ++ (recordOf m).toList := by
  unfold extractStep recordOf
  cases pyFloat? m.2.1 with
  | none => simp
  | some lat =>
    cases pyFloat? m.2.2 with
    | none => simp
    | some lon =>
      dsimp only
      split_ifs with h <;> simp

theorem foldl_extractStep (l : List (Str × Str × Str)) :
    ∀ acc, l.foldl extractStep acc = acc ++ l.filterMap recordOf := by
  induction l with
  | nil => intro acc; simp
  | cons m rest ih =>
    intro acc
    rw [List.foldl_cons, extractStep_eq, ih, List.filterMap_cons]
    cases recordOf m <;> simp

/-- `extract_map_data`'s accumulating loop is the declarative
per-match validation, in match order. -/
theorem extract_eq_filterMap (text : String) :
    extract_map_data text = (findTriples text.data).filterMap recordOf := by
  unfold extract_map_data
  rw [foldl_extractStep]
  rfl

/-- The per-name postprocessing yields either the fallback literal or
the shortened form of a cleaned candidate of at least three words. -/
theorem postProcess_shape (name cand : Str) :
    postProcess name cand = fallbackStr ∨
      ∃ c, 3 ≤ (pySplitWs c).length ∧ postProcess name cand = shortify c 10 := by
  simp only [postProcess]
  by_cases h1 : cand ≠ []
  · rw [if_pos h1]
    by_cases h2 : (cleanDesc name cand = [] ∨
        pyLower (cleanDesc name cand) = pyLower name ∨
        (pySplitWs (cleanDesc name cand)).length < 3)
    · rw [if_pos h2, if_pos rfl]
      left; rfl
    · rw [if_neg h2]
      by_cases h3 : shortify (cleanDesc name cand) 10 = []
      · rw [if_pos h3]
        left; rfl
      · rw [if_neg h3]
        right
        refine ⟨cleanDesc name cand, ?_, rfl⟩
        push_neg at h2
        omega
  · rw [if_neg h1, if_pos rfl]
    left; rfl

theorem postProcess_ne_nil (name cand : Str) : postProcess name cand ≠ [] := by
  rcases postProcess_shape name cand with h | ⟨c, hc, h⟩
  · rw [h]; decide
  · rw [h]
    exact shortify_ne_nil c (by
      intro he
      rw [he] at hc
      simp at hc)

theorem postProcess_tokens (name cand : Str) :
    postProcess name cand = fallbackStr ∨
      (pySplitWs (postProcess name cand)).length ≤ 10 := by
  rcases postProcess_shape name cand with h | ⟨c, _, h⟩
  · left; exact h
  · right; rw [h]; exact shortify_tokens c

theorem containsSub_nil (t : Str) (ht : t ≠ []) : containsSub [] t = false := by
  cases t with
  | nil => exact absurd rfl ht
  | cons c cs => rfl

theorem scoreOf_nil (toks : List Str) (htoks : ∀ t ∈ toks, t ≠ []) :
    scoreOf toks [] = 0 := by
  unfold scoreOf
  have h : toks.countP (fun t => containsSub [] t) = 0 := by
    rw [List.countP_eq_zero]
    intro t ht
    simp [containsSub_nil t (htoks t ht)]
  rw [h]
  simp [mkRat]

theorem scoreOf_nonneg (toks : List Str) (sN : Str) : 0 ≤ scoreOf toks sN := by
  unfold scoreOf
  rw [Rat.mkRat_eq_div]
  positivity

theorem le_foldr_max (l : List ℚ) : ∀ b, b ≤ l.foldr max b := by
  induction l with
  | nil => intro b; exact le_refl b
  | cons s rest ih =>
    intro b
    exact le_trans (ih b) (le_max_right s _)

theorem foldr_max_init (l : List ℚ) :
    ∀ a b, b ≤ a → l.foldr max a = max a (l.foldr max b) := by
  induction l with
  | nil =>
    intro a b hba
    simp [List.foldr_nil, max_eq_left hba]
  | cons s rest ih =>
    intro a b hba
    simp only [List.foldr_cons]
    rw [ih a b hba, max_left_comm]

theorem bestLoop_inv (toks : List Str) (htoks : ∀ t ∈ toks, t ≠ []) :
    ∀ (pairs : List (Str × Str)) (idx : ℕ) (b : ℚ) (bi : Option ℕ),
      0 ≤ b →
      (∀ p ∈ pairs, p.1 = [] → p.2 = []) →
      (bestLoop toks pairs idx b bi).1 =
          (pairs.map (fun p => scoreOf toks p.2)).foldr max b
        ∧ ((pairs.map (fun p => scoreOf toks p.2)).foldr max b = b →
            (bestLoop toks pairs idx b bi).2 = bi)
        ∧ (b < (pairs.map (fun p => scoreOf toks p.2)).foldr max b →
            ∃ k, k < pairs.length ∧
              scoreOf toks ((pairs.getD k ([], [])).2) =
                (pairs.map (fun p => scoreOf toks p.2)).foldr max b ∧
              (∀ j, j < k → scoreOf toks ((pairs.getD j ([], [])).2) <
                (pairs.map (fun p => scoreOf toks p.2)).foldr max b) ∧
              (bestLoop toks pairs idx b bi).2 = some (idx + k)) := by
  intro pairs
  induction pairs with
  | nil =>
    intro idx b bi hb _
    refine ⟨rfl, fun _ => rfl, fun h => absurd h (lt_irrefl b)⟩
  | cons p rest ih =>
    intro idx b bi hb hp
    obtain ⟨sL, sN⟩ := p
    have hprest : ∀ q ∈ rest, q.1 = [] → q.2 = [] :=
      fun q hq => hp q (by simp [hq])
    by_cases hsl : sL = []
    · -- skipped sentence: its score is zero
      have hsn : sN = [] := hp (sL, sN) (by simp) hsl
      have hs0 : scoreOf toks sN = 0 := by rw [hsn]; exact scoreOf_nil toks htoks
      have hloop : bestLoop toks ((sL, sN) :: rest) idx b bi =
          bestLoop toks rest (idx + 1) b bi := by
        show (if sL = [] then bestLoop toks rest (idx + 1) b bi
          else if b < scoreOf toks sN then
            bestLoop toks rest (idx + 1) (scoreOf toks sN) (some idx)
          else bestLoop toks rest (idx + 1) b bi) = _
        rw [if_pos hsl]
      obtain ⟨ih1, ih2, ih3⟩ := ih (idx + 1) b bi hb hprest
      set R := (rest.map (fun p => scoreOf toks p.2)).foldr max b with hR
      have hbR : b ≤ R := le_foldr_max _ b
      have hM : ((((sL, sN) :: rest).map (fun p => scoreOf toks p.2)).foldr max b) = R := by
        simp only [List.map_cons, List.foldr_cons, hs0]
        exact max_eq_right (le_trans hb hbR)
      rw [hloop, hM]
      refine ⟨ih1, ih2, ?_⟩
      intro hlt
      obtain ⟨k, hk, hsc, hall, hres⟩ := ih3 hlt
      refine ⟨k + 1, by simpa using hk, by simpa using hsc, ?_, ?_⟩
      · intro j hj
        cases j with
        | zero => simpa [hs0] using lt_of_le_of_lt hb hlt
        | succ j2 => exact by simpa using hall j2 (by omega)
      · rw [hres]
        congr 1
        omega
    · by_cases hup : b < scoreOf toks sN
      · -- strict improvement: restart with the new best
        have hloop : bestLoop toks ((sL, sN) :: rest) idx b bi =
            bestLoop toks rest (idx + 1) (scoreOf toks sN) (some idx) := by
          show (if sL = [] then bestLoop toks rest (idx + 1) b bi
            else if b < scoreOf toks sN then
              bestLoop toks rest (idx + 1) (scoreOf toks sN) (some idx)
            else bestLoop toks rest (idx + 1) b bi) = _
          rw [if_neg hsl, if_pos hup]
        set s := scoreOf toks sN with hs
        obtain ⟨ih1, ih2, ih3⟩ :=
          ih (idx + 1) s (some idx) (scoreOf_nonneg toks sN) hprest
        set R := (rest.map (fun p => scoreOf toks p.2)).foldr max b with hR
        set Rs := (rest.map (fun p => scoreOf toks p.2)).foldr max s with hRs
        have hRsR : Rs = max s R := foldr_max_init _ s b (le_of_lt hup)
        have hM : ((((sL, sN) :: rest).map (fun p => scoreOf toks p.2)).foldr max b) = Rs := by
          simp only [List.map_cons, List.foldr_cons]
          rw [hRsR]
        have hsRs : s ≤ Rs := le_foldr_max _ s
        rw [hloop, hM]
        refine ⟨ih1, ?_, ?_⟩
        · intro habs
          exact absurd (lt_of_lt_of_le hup (le_trans hsRs (le_of_eq habs))) (lt_irrefl b)
        · intro _
          rcases lt_or_eq_of_le hsRs with hlt2 | heq2
          · obtain ⟨k, hk, hsc, hall, hres⟩ := ih3 hlt2
            refine ⟨k + 1, by simpa using hk, by simpa using hsc, ?_, ?_⟩
            · intro j hj
              cases j with
              | zero => simpa using lt_of_lt_of_le hlt2 (le_refl Rs)
              | succ j2 => exact by simpa using hall j2 (by omega)
            · rw [hres]
              congr 1
              omega
          · refine ⟨0, by simp, by simpa using heq2, ?_, ?_⟩
            · intro j hj
              omega
            · rw [ih2 heq2.symm]
              simp
      · -- no improvement
        have hloop : bestLoop toks ((sL, sN) :: rest) idx b bi =
            bestLoop toks rest (idx + 1) b bi := by
          show (if sL = [] then bestLoop toks rest (idx + 1) b bi
            else if b < scoreOf toks sN then
              bestLoop toks rest (idx + 1) (scoreOf toks sN) (some idx)
            else bestLoop toks rest (idx + 1) b bi) = _
          rw [if_neg hsl, if_neg hup]
        obtain ⟨ih1, ih2, ih3⟩ := ih (idx + 1) b bi hb hprest
        set R := (rest.map (fun p => scoreOf toks p.2)).foldr max b with hR
        have hbR : b ≤ R := le_foldr_max _ b
        have hsb : scoreOf toks sN ≤ b := le_of_not_lt hup
        have hM : ((((sL, sN) :: rest).map (fun p => scoreOf toks p.2)).foldr max b) = R := by
          simp only [List.map_cons, List.foldr_cons]
          exact max_eq_right (le_trans hsb hbR)
        rw [hloop, hM]
        refine ⟨ih1, ih2, ?_⟩
        intro hlt
        obtain ⟨k, hk, hsc, hall, hres⟩ := ih3 hlt
        refine ⟨k + 1, by simpa using hk, by simpa using hsc, ?_, ?_⟩
        · intro j hj
          cases j with
          | zero => simpa using lt_of_le_of_lt hsb hlt
          | succ j2 => exact by simpa using hall j2 (by omega)
        · rw [hres]
          congr 1
          omega

theorem zip_map_snd (f : Str → Str) :
    ∀ l : List Str, ∀ p ∈ l.zip (l.map f), p.2 = f p.1 := by
  intro l
  induction l with
  | nil => intro p hp; simp at hp
  | cons x xs ih =>
    intro p hp
    simp only [List.map_cons, List.zip_cons_cons, List.mem_cons] at hp
    rcases hp with hp | hp
    · subst hp; rfl
    · exact ih p hp

theorem zip_map_scores (toks : List Str) (f : Str → Str) :
    ∀ l : List Str,
      (l.zip (l.map f)).map (fun p => scoreOf toks p.2) =
        (l.map f).map (scoreOf toks) := by
  intro l
  induction l with
  | nil => rfl
  | cons x xs ih => simp [ih]

theorem zip_map_getD (toks : List Str) (f : Str → Str) :
    ∀ (l : List Str) (k : ℕ), k < l.length →
      scoreOf toks (((l.zip (l.map f)).getD k ([], [])).2) =
        ((l.map f).map (scoreOf toks)).getD k 0 := by
  intro l
  induction l with
  | nil => intro k hk; simp at hk
  | cons x xs ih =>
    intro k hk
    cases k with
    | zero => simp
    | succ k2 =>
      simp only [List.map_cons, List.zip_cons_cons, List.getD_cons_succ]
      exact ih k2 (by simpa using hk)

theorem strat5_spec (sentences lowerS : List Str) (toks : List Str)
    (htoks : ∀ t ∈ toks, t ≠ []) :
    ((((lowerS.map stripAccents).map (scoreOf toks)).foldr max 0 < mkRat 2 5 →
        strat5 sentences lowerS (lowerS.map stripAccents) toks = [])
      ∧ (mkRat 2 5 ≤ ((lowerS.map stripAccents).map (scoreOf toks)).foldr max 0 →
          ∃ i, i < ((lowerS.map stripAccents).map (scoreOf toks)).length ∧
            ((lowerS.map stripAccents).map (scoreOf toks)).getD i 0 =
              ((lowerS.map stripAccents).map (scoreOf toks)).foldr max 0 ∧
            (∀ j, j < i →
              ((lowerS.map stripAccents).map (scoreOf toks)).getD j 0 <
                ((lowerS.map stripAccents).map (scoreOf toks)).foldr max 0) ∧
            strat5 sentences lowerS (lowerS.map stripAccents) toks =
              pyStrip (sentences.getD i []))) := by
  set normS := lowerS.map stripAccents with hnorm
  set scores := normS.map (scoreOf toks) with hscdef
  set M := scores.foldr max 0 with hM
  have hp : ∀ p ∈ lowerS.zip normS, p.1 = [] → p.2 = [] := by
    intro p hp hp1
    rw [zip_map_snd stripAccents lowerS p hp, hp1]
    rfl
  obtain ⟨h1, _, h3⟩ :=
    bestLoop_inv toks htoks (lowerS.zip normS) 0 0 none le_rfl hp
  have hsc : (lowerS.zip normS).map (fun p => scoreOf toks p.2) = scores := by
    rw [hscdef, hnorm]
    exact zip_map_scores toks stripAccents lowerS
  rw [hsc] at h1 h3
  constructor
  · intro hMlt
    simp only [strat5]
    rw [h1]
    rw [if_neg (not_le.mpr hMlt)]
  · intro hMge
    have h0M : (0 : ℚ) < M :=
      lt_of_lt_of_le (by norm_num [mkRat] : (0 : ℚ) < mkRat 2 5) hMge
    obtain ⟨k, hk, hksc, hall, hres⟩ := h3 h0M
    have hklen : k < lowerS.length := by
      rw [List.length_zip] at hk
      omega
    have hslen : scores.length = lowerS.length := by
      rw [hscdef, hnorm]
      simp
    refine ⟨k, by omega, ?_, ?_, ?_⟩
    · rw [← zip_map_getD toks stripAccents lowerS k hklen]
      exact hksc
    · intro j hj
      rw [← zip_map_getD toks stripAccents lowerS j (by omega)]
      exact hall j hj
    · simp only [strat5]
      rw [h1, if_pos hMge, hres]
      simp

/-! ## Glue lemmas for the claim theorems -/

/-- A string built from a non-empty character list is not the empty string. -/
theorem strOfData_ne_empty (l : Str) (h : l ≠ []) : (⟨l⟩ : String) ≠ "" :=
  fun he => h (congrArg String.data he)

/-- Name tokens are non-empty: they survived the `len(t) > 2` filter. -/
theorem nameTokens_ne_nil (nameN : Str) : ∀ t ∈ nameTokens nameN, t ≠ [] := by
  intro t ht
  have h2 : 2 < t.length := by
    have := (List.mem_filter.mp ht).2
    simpa using this
  intro he
  rw [he] at h2
  simp at h2

/-- The accent-stripped shadow sentences are the accent-stripped forms
of the lower-cased sentences. -/
theorem mkEnv_norm (t : Str) :
    (mkEnv t).lowerSentencesNorm = (mkEnv t).lowerSentences.map stripAccents := rfl

theorem summarizeOne_ne_nil (env : SumEnv) (name : Str) :
    summarizeOne env name ≠ [] :=
  postProcess_ne_nil name (candidate env name)

theorem summarizeOne_tokens (env : SumEnv) (name : Str) :
    summarizeOne env name = fallbackStr ∨
      (pySplitWs (summarizeOne env name)).length ≤ 10 :=
  postProcess_tokens name (candidate env name)

/-- The hard-truncation shape with a general word bound: joining the
first `n` tokens and gluing the ellipsis yields exactly `n` tokens. -/
theorem truncN_tokens (short : Str) (n : Nat) (hn : 0 < n)
    (h : n < (pySplitWs short).length) :
    (pySplitWs (joinSpace ((pySplitWs short).take n) ++ "...".data)).length = n := by
  set lst := (pySplitWs short).take n with hlst
  have hgood : ∀ w ∈ lst, w ≠ [] ∧ noWsIn w :=
    fun w hw => pySplitWs_elem short w (List.mem_of_mem_take hw)
  have hlen : lst.length = n := by
    rw [hlst, List.length_take]
    omega
  have hne : lst ≠ [] := by
    intro he
    rw [he] at hlen
    simp at hlen
    omega
  have hjoin : pySplitWs (joinWith [' '] lst) = lst := pySplitWs_join lst hgood
  have hjoinne : joinWith [' '] lst ≠ [] :=
    joinWith_ne_nil _ _ hne (fun w hw => (hgood w hw).1)
  have hjlast : ∀ c, (joinWith [' '] lst).getLast? = some c → isPySpace c = false := by
    intro c hc
    obtain ⟨w, hw, hwc⟩ :=
      joinWith_getLast _ _ (fun w hw2 => (hgood w hw2).1) hne c hc
    exact (hgood w hw).2 c (mem_of_getLast?_eq hwc)
  show (pySplitWs (joinWith [' '] lst ++ "...".data)).length = n
  rw [tokens_append_dots _ hjoinne hjlast, hjoin, hlen]

/-! ## The claims -/

/-- C1 counterexample: on an empty text the function returns no record
at all, so "exactly one SummaryRecord per input name" fails for the
empty text with one name (the guard `if not text or not names` returns
the empty list early). -/
theorem C1_cex :
    (get_location_summaries "" ["x"] 140).length ≠ (["x"] : List String).length := by
  decide

/-- C1 (amended): for a NON-EMPTY text and a NON-EMPTY name list,
`get_location_summaries` returns exactly one record per input name, in
input order: the i-th output record carries the i-th input name. -/
theorem C1_order (text : String) (names : List String) (maxLen : Nat)
    (ht : text.data ≠ []) (hn : names ≠ []) :
    (get_location_summaries text names maxLen).length = names.length ∧
      ∀ i, i < names.length →
        ((get_location_summaries text names maxLen).getD i
            { name := "", desc := "" }).name = names.getD i "" := by
  unfold get_location_summaries
  rw [if_neg (by push_neg; exact ⟨ht, hn⟩)]
  refine ⟨by simp, ?_⟩
  intro i hi
  rw [List.getD_eq_getElem?_getD, List.getD_eq_getElem?_getD, List.getElem?_map,
    List.getElem?_eq_getElem hi]
  simp

/-- C1 witness: the amended theorem at a concrete text and name list. -/
theorem C1_order_wit :
    ("Rome is nice." : String).data ≠ [] ∧ (["Rome"] : List String) ≠ [] ∧
      ((get_location_summaries "Rome is nice." ["Rome"] 140).length =
          (["Rome"] : List String).length ∧
        ∀ i, i < (["Rome"] : List String).length →
          ((get_location_summaries "Rome is nice." ["Rome"] 140).getD i
              { name := "", desc := "" }).name =
            (["Rome"] : List String).getD i "") :=
  ⟨by decide, by decide, C1_order "Rome is nice." ["Rome"] 140 (by decide) (by decide)⟩

/-- C2 counterexample: `"Pla | 5 | 6.5"` holds one triple whose fields
are decimal numbers (one integer-valued) within range, yet the code
returns NO record: its regex `-?\d+\.?\d+` demands at least two digits
in an integer-valued field, so `5` does not match (and the scan finds
no other triple).  The spec-modelled extractor, whose number grammar
admits single-digit integers, returns the record. -/
theorem C2_cex :
    extract_map_data "Pla | 5 | 6.5" = [] ∧
      spec_extract "Pla | 5 | 6.5" =
        [{ name := "Pla", lat := 5, lon := mkRat 13 2 }] := by
  decide

/-- C2 (amended): `extract_map_data` returns one record per regex match
of the triple pattern, in match order, each match validated in
isolation (coordinates parsed, out-of-range records dropped while the
rest are kept, the name stripped of whitespace and of `*`, `-`, `[`,
`]` — all inside `recordOf`); every match carries numeric fields of the
CODE grammar `-?\d+\.?\d+`, which requires two digits in an
integer-valued field, so they always parse as floats. -/
theorem C2_extract (text : String) :
    extract_map_data text = (findTriples text.data).filterMap recordOf ∧
      ∀ m ∈ findTriples text.data,
        (pyFloat? m.2.1).isSome ∧ (pyFloat? m.2.2).isSome :=
  ⟨extract_eq_filterMap text, findTriples_parse text.data⟩

/-- C3 counterexample: a name made only of decoration characters strips
to the EMPTY string, yet the record is returned — the code never
re-checks the name after stripping. -/
theorem C3_cex :
    extract_map_data "** | 1.5 | 2.5" =
      [{ name := "", lat := mkRat 3 2, lon := mkRat 5 2 }] := by
  decide

/-- C3 (amended): the coordinate-range half of the invariant holds —
every returned record satisfies the latitude and longitude bounds (the
non-empty-name half is refuted by the counterexample). -/
theorem C3_range (text : String) :
    ∀ r ∈ extract_map_data text,
      -90 ≤ r.lat ∧ r.lat ≤ 90 ∧ -180 ≤ r.lon ∧ r.lon ≤ 180 := by
  intro r hr
  rw [extract_eq_filterMap] at hr
  obtain ⟨m, _hm, hrec⟩ := List.mem_filterMap.mp hr
  unfold recordOf at hrec
  split at hrec
  · split at hrec
    · rename_i hcond
      injection hrec with hre
      subst hre
      simpa using hcond
    · exact absurd hrec (by simp)
  · exact absurd hrec (by simp)

/-- C3 witness: the amended theorem at a concrete text and record. -/
theorem C3_range_wit :
    ((⟨"N", mkRat 4885 100, mkRat 235 100⟩ : LocationRecord) ∈
        extract_map_data "N | 48.85 | 2.35") ∧
      (-90 ≤ (⟨"N", mkRat 4885 100, mkRat 235 100⟩ : LocationRecord).lat ∧
        (⟨"N", mkRat 4885 100, mkRat 235 100⟩ : LocationRecord).lat ≤ 90 ∧
        -180 ≤ (⟨"N", mkRat 4885 100, mkRat 235 100⟩ : LocationRecord).lon ∧
        (⟨"N", mkRat 4885 100, mkRat 235 100⟩ : LocationRecord).lon ≤ 180) :=
  ⟨by decide, C3_range "N | 48.85 | 2.35" _ (by decide)⟩

/-- C4: both functions are total in this model (they are plain
recursive functions, so no exception can escape; the only fallible
steps — float parsing and the range check — are the `Option` cases of
`recordOf`): the empty text extracts to the empty list, a text without
a triple match extracts to the empty list, and every summary record
carries a non-empty description (a matched candidate or the fixed
fallback literal). -/
theorem C4_total (text : String) (names : List String) (maxLen : Nat) :
    extract_map_data "" = [] ∧
      (findTriples text.data = [] → extract_map_data text = []) ∧
      ∀ r ∈ get_location_summaries text names maxLen, r.desc ≠ "" := by
  refine ⟨by decide, ?_, ?_⟩
  · intro hnone
    rw [extract_eq_filterMap, hnone]
    rfl
  · intro r hr
    unfold get_location_summaries at hr
    split at hr
    · simp at hr
    · obtain ⟨n, _hn, hrn⟩ := List.mem_map.mp hr
      subst hrn
      exact strOfData_ne_empty _ (summarizeOne_ne_nil _ _)

/-- C5 counterexample: the code tests the not-found phrases against the
WHOLE stripped response before taking its first line, while the claim
takes the first line first.  On a response whose second line holds the
phrase, the code falls back while the claimed order keeps the clean
first line. -/
theorem C5_cex :
    generate_place_summary
        (Except.ok "Nice place.\nThat information is not in this specific briefing.") =
      aiFallback ∧
      spec_sanitize
          (Except.ok "Nice place.\nThat information is not in this specific briefing.") =
        "Nice place." := by
  decide

/-- C5 (amended): an exception in the external call yields the literal
fallback (never a propagated error); the not-found phrase test runs on
the WHOLE stripped response (so a phrase anywhere in it forces the
fallback); otherwise the result is the first line of the stripped
response, truncated to 15 words with ellipsis when longer; every
result stays within 15 whitespace tokens (the fallback itself has
four). -/
theorem C5_sanitize (r : String) :
    generate_place_summary (Except.error ()) = aiFallback ∧
      (containsSub (pyLower (pyStrip r.data)) phraseBriefing = true →
        generate_place_summary (Except.ok r) = aiFallback) ∧
      (containsSub (pyLower (pyStrip r.data)) phraseNoShort = true →
        generate_place_summary (Except.ok r) = aiFallback) ∧
      (generate_place_summary (Except.ok r) = aiFallback ∨
        (generate_place_summary (Except.ok r)).data =
            (pyLines (pyStrip r.data)).headD [] ∨
        (15 < (pySplitWs ((pyLines (pyStrip r.data)).headD [])).length ∧
          (generate_place_summary (Except.ok r)).data =
            joinSpace ((pySplitWs ((pyLines (pyStrip r.data)).headD [])).take 15) ++
              "...".data)) ∧
      (pySplitWs (generate_place_summary (Except.ok r)).data).length ≤ 15 := by
  refine ⟨rfl, ?_, ?_, ?_, ?_⟩
  · intro h
    simp only [generate_place_summary]
    rw [if_pos (Or.inr (Or.inl h))]
  · intro h
    simp only [generate_place_summary]
    rw [if_pos (Or.inr (Or.inr h))]
  · simp only [generate_place_summary]
    by_cases hg : pyStrip r.data = [] ∨
        containsSub (pyLower (pyStrip r.data)) phraseBriefing = true ∨
        containsSub (pyLower (pyStrip r.data)) phraseNoShort = true
    · rw [if_pos hg]
      exact Or.inl rfl
    · rw [if_neg hg]
      by_cases hw : 15 <
          (pySplitWs ((pyLines (pyStrip r.data)).headD [])).length
      · rw [if_pos hw]
        exact Or.inr (Or.inr ⟨hw, rfl⟩)
      · rw [if_neg hw]
        exact Or.inr (Or.inl rfl)
  · simp only [generate_place_summary]
    by_cases hg : pyStrip r.data = [] ∨
        containsSub (pyLower (pyStrip r.data)) phraseBriefing = true ∨
        containsSub (pyLower (pyStrip r.data)) phraseNoShort = true
    · rw [if_pos hg]
      decide
    · rw [if_neg hg]
      by_cases hw : 15 <
          (pySplitWs ((pyLines (pyStrip r.data)).headD [])).length
      · rw [if_pos hw]
        have := truncN_tokens ((pyLines (pyStrip r.data)).headD []) 15
          (by omega) hw
        show (pySplitWs (joinSpace _ ++ "...".data)).length ≤ 15
        omega
      · rw [if_neg hw]
        show (pySplitWs ((pyLines (pyStrip r.data)).headD [])).length ≤ 15
        omega

/-- C6: whenever the cleaned candidate exceeds ten words, the
shortened description ends in the ellipsis and holds at most ten
whitespace tokens (the ellipsis glued to the last word, hence within
the eleven of the claim); the first sentence is preferred when it fits
in ten words, else the first-two-clauses text (`shortOf`) is used,
hard-truncated to ten words when it is itself too long. -/
theorem C6_shortify (c : Str) (h : 10 < (pySplitWs c).length) :
    pyEndsWith (shortify c 10) "...".data = true ∧
      (pySplitWs (shortify c 10)).length ≤ 10 ∧
      ((pySplitWs ((sentSplit (pyStrip c)).headD [])).length ≤ 10 →
        shortify c 10 = pyStrip ((sentSplit (pyStrip c)).headD []) ++ "...".data) ∧
      (10 < (pySplitWs ((sentSplit (pyStrip c)).headD [])).length →
        (10 < (pySplitWs (shortOf (pyStrip c))).length →
          shortify c 10 =
            joinSpace ((pySplitWs (shortOf (pyStrip c))).take 10) ++ "...".data) ∧
        ((pySplitWs (shortOf (pyStrip c))).length ≤ 10 →
          shortify c 10 = shortOf (pyStrip c) ++ "...".data)) := by
  have hstrip : 10 < (pySplitWs (pyStrip c)).length := by
    rw [pySplitWs_strip]
    exact h
  have hsne : pyStrip c ≠ [] := by
    intro he
    rw [he] at hstrip
    simp [pySplitWs, splitWsAcc] at hstrip
  refine ⟨shortify_endsWith c h, shortify_tokens c,
    fun hp => shortify_firstSentence c h hp, ?_⟩
  intro hfs
  have hnotsent : ¬(sentSplit (pyStrip c) ≠ [] ∧
      (pySplitWs ((sentSplit (pyStrip c)).headD [])).length ≤ 10) :=
    fun hc => absurd hc.2 (by omega)
  constructor
  · intro hso
    simp only [shortify]
    rw [if_neg hsne, if_neg (by omega), if_neg hnotsent, if_pos hso]
  · intro hso
    simp only [shortify]
    rw [if_neg hsne, if_neg (by omega), if_neg hnotsent, if_neg (by omega)]

/-- C6 witness: the shortening theorem at a concrete twelve-word
candidate (no sentence break, no comma: the hard-truncation branch). -/
theorem C6_shortify_wit :
    10 < (pySplitWs ("alpha beta gamma delta epsilon zeta eta theta iota kappa lambda mu" : String).data).length ∧
      (pyEndsWith (shortify ("alpha beta gamma delta epsilon zeta eta theta iota kappa lambda mu" : String).data 10) "...".data = true ∧
        (pySplitWs (shortify ("alpha beta gamma delta epsilon zeta eta theta iota kappa lambda mu" : String).data 10)).length ≤ 10 ∧
        ((pySplitWs ((sentSplit (pyStrip ("alpha beta gamma delta epsilon zeta eta theta iota kappa lambda mu" : String).data)).headD [])).length ≤ 10 →
          shortify ("alpha beta gamma delta epsilon zeta eta theta iota kappa lambda mu" : String).data 10 =
            pyStrip ((sentSplit (pyStrip ("alpha beta gamma delta epsilon zeta eta theta iota kappa lambda mu" : String).data)).headD []) ++ "...".data) ∧
        (10 < (pySplitWs ((sentSplit (pyStrip ("alpha beta gamma delta epsilon zeta eta theta iota kappa lambda mu" : String).data)).headD [])).length →
          (10 < (pySplitWs (shortOf (pyStrip ("alpha beta gamma delta epsilon zeta eta theta iota kappa lambda mu" : String).data))).length →
            shortify ("alpha beta gamma delta epsilon zeta eta theta iota kappa lambda mu" : String).data 10 =
              joinSpace ((pySplitWs (shortOf (pyStrip ("alpha beta gamma delta epsilon zeta eta theta iota kappa lambda mu" : String).data))).take 10) ++ "...".data) ∧
          ((pySplitWs (shortOf (pyStrip ("alpha beta gamma delta epsilon zeta eta theta iota kappa lambda mu" : String).data))).length ≤ 10 →
            shortify ("alpha beta gamma delta epsilon zeta eta theta iota kappa lambda mu" : String).data 10 =
              shortOf (pyStrip ("alpha beta gamma delta epsilon zeta eta theta iota kappa lambda mu" : String).data) ++ "...".data))) :=
  ⟨by decide,
    C6_shortify ("alpha beta gamma delta epsilon zeta eta theta iota kappa lambda mu" : String).data (by decide)⟩

/-- C7 counterexample: the claim as stated fails — this text CONTAINS
the accented name, but only inside a coordinate-triple line, which the
preprocessing removes before any matching, so the resolver returns the
fallback literal for the name. -/
theorem C7_cex :
    containsSub (pyLower "Café de Flore | 48.0 | 2.0".data)
        (pyLower "Café de Flore".data) = true ∧
      get_location_summaries "Café de Flore | 48.0 | 2.0" ["Cafe de Flore"] 140 =
        [{ name := "Cafe de Flore", desc := "No short description available." }] := by
  decide

/-- C7 (amended): accent-insensitive matching does hold for a mention
that survives preprocessing — stripping accents from the lower-cased
accented mention yields the plain name, and a descriptive sentence
holding the accented form resolves the unaccented query name to that
sentence, not to the fallback. -/
theorem C7_accent :
    stripAccents (pyLower "Café de Flore".data) = "cafe de flore".data ∧
      get_location_summaries "The Café de Flore is a historic literary cafe."
          ["Cafe de Flore"] 140 =
        [{ name := "Cafe de Flore",
           desc := "The Café de Flore is a historic literary cafe." }] := by
  decide

/-- C8: when strategies 1-4 fail (empty candidate before the
fallback), the resolver tokenizes the accent-stripped lower-cased name
into words longer than two characters, scores every sentence shadow by
the contained-token fraction, and takes the first highest-scoring
sentence exactly when the maximal score reaches 2/5 = 0.4, else the
text-matching candidate is empty. -/
theorem C8_overlap (text name : Str)
    (hfail : candBefore5 (mkEnv text) name = []) :
    ((((mkEnv text).lowerSentencesNorm.map
          (scoreOf (nameTokens (stripAccents (pyLower name))))).foldr max 0 <
        mkRat 2 5 →
      candidate (mkEnv text) name = []) ∧
      (mkRat 2 5 ≤
          ((mkEnv text).lowerSentencesNorm.map
            (scoreOf (nameTokens (stripAccents (pyLower name))))).foldr max 0 →
        ∃ i, i < ((mkEnv text).lowerSentencesNorm.map
              (scoreOf (nameTokens (stripAccents (pyLower name))))).length ∧
          ((mkEnv text).lowerSentencesNorm.map
              (scoreOf (nameTokens (stripAccents (pyLower name))))).getD i 0 =
            ((mkEnv text).lowerSentencesNorm.map
              (scoreOf (nameTokens (stripAccents (pyLower name))))).foldr max 0 ∧
          (∀ j, j < i →
            ((mkEnv text).lowerSentencesNorm.map
                (scoreOf (nameTokens (stripAccents (pyLower name))))).getD j 0 <
              ((mkEnv text).lowerSentencesNorm.map
                (scoreOf (nameTokens (stripAccents (pyLower name))))).foldr max 0) ∧
          candidate (mkEnv text) name =
            pyStrip ((mkEnv text).sentences.getD i []))) := by
  have hcand : candidate (mkEnv text) name =
      strat5 (mkEnv text).sentences (mkEnv text).lowerSentences
        (mkEnv text).lowerSentencesNorm
        (nameTokens (stripAccents (pyLower name))) := by
    simp only [candidate, hfail]
    rw [if_neg (by simp)]
  rw [hcand, mkEnv_norm text]
  exact strat5_spec (mkEnv text).sentences (mkEnv text).lowerSentences
    (nameTokens (stripAccents (pyLower name)))
    (nameTokens_ne_nil (stripAccents (pyLower name)))

/-- C8 witness: the fallback theorem at a concrete text and a name
that no strategy before the token overlap resolves (two of its three
tokens occur, score 2/3 above the threshold). -/
theorem C8_overlap_wit :
    candBefore5 (mkEnv ("Alpha beta gamma." : String).data)
        ("alpha gamma delta" : String).data = [] ∧
      ((((mkEnv ("Alpha beta gamma." : String).data).lowerSentencesNorm.map
            (scoreOf (nameTokens (stripAccents
              (pyLower ("alpha gamma delta" : String).data))))).foldr max 0 <
          mkRat 2 5 →
        candidate (mkEnv ("Alpha beta gamma." : String).data)
          ("alpha gamma delta" : String).data = []) ∧
        (mkRat 2 5 ≤
            ((mkEnv ("Alpha beta gamma." : String).data).lowerSentencesNorm.map
              (scoreOf (nameTokens (stripAccents
                (pyLower ("alpha gamma delta" : String).data))))).foldr max 0 →
          ∃ i, i < ((mkEnv ("Alpha beta gamma." : String).data).lowerSentencesNorm.map
                (scoreOf (nameTokens (stripAccents
                  (pyLower ("alpha gamma delta" : String).data))))).length ∧
            ((mkEnv ("Alpha beta gamma." : String).data).lowerSentencesNorm.map
                (scoreOf (nameTokens (stripAccents
                  (pyLower ("alpha gamma delta" : String).data))))).getD i 0 =
              ((mkEnv ("Alpha beta gamma." : String).data).lowerSentencesNorm.map
                (scoreOf (nameTokens (stripAccents
                  (pyLower ("alpha gamma delta" : String).data))))).foldr max 0 ∧
            (∀ j, j < i →
              ((mkEnv ("Alpha beta gamma." : String).data).lowerSentencesNorm.map
                  (scoreOf (nameTokens (stripAccents
                    (pyLower ("alpha gamma delta" : String).data))))).getD j 0 <
                ((mkEnv ("Alpha beta gamma." : String).data).lowerSentencesNorm.map
                  (scoreOf (nameTokens (stripAccents
                    (pyLower ("alpha gamma delta" : String).data))))).foldr max 0) ∧
            candidate (mkEnv ("Alpha beta gamma." : String).data)
                ("alpha gamma delta" : String).data =
              pyStrip ((mkEnv ("Alpha beta gamma." : String).data).sentences.getD i []))) :=
  ⟨by decide,
    C8_overlap ("Alpha beta gamma." : String).data
      ("alpha gamma delta" : String).data (by decide)⟩

/-- C9: the `max_len` parameter is dead — the body never reads it, so
any two values give identical results. -/
theorem C9_maxlen (text : String) (names : List String) (m1 m2 : Nat) :
    get_location_summaries text names m1 = get_location_summaries text names m2 := rfl

/-- C10: every returned description is non-empty, and is the fallback
literal or a cleaned extract within ten whitespace tokens (the
ellipsis, when present, glued to the tenth word). -/
theorem C10_desc (text : String) (names : List String) (maxLen : Nat) :
    ∀ r ∈ get_location_summaries text names maxLen,
      r.desc ≠ "" ∧
        (r.desc = "No short description available." ∨
          (pySplitWs r.desc.data).length ≤ 10) := by
  intro r hr
  unfold get_location_summaries at hr
  split at hr
  · simp at hr
  · obtain ⟨n, _hn, hrn⟩ := List.mem_map.mp hr
    subst hrn
    dsimp only
    refine ⟨strOfData_ne_empty _ (summarizeOne_ne_nil _ _), ?_⟩
    rcases summarizeOne_tokens (mkEnv text.data) n.data with h | h
    · exact Or.inl (congrArg String.mk h)
    · exact Or.inr h

/-- C10 witness: the invariant at a concrete call whose only record is
the fallback literal. -/
theorem C10_desc_wit :
    ({ name := "Rome", desc := "No short description available." } ∈
        get_location_summaries "hello world" ["Rome"] 140) ∧
      (({ name := "Rome", desc := "No short description available." } : SummaryRecord).desc ≠ "" ∧
        (({ name := "Rome", desc := "No short description available." } : SummaryRecord).desc =
            "No short description available." ∨
          (pySplitWs ({ name := "Rome", desc := "No short description available." } : SummaryRecord).desc.data).length ≤ 10)) :=
  ⟨by decide, C10_desc "hello world" ["Rome"] 140 _ (by decide)⟩
